import Mathlib

/-!
Verification of core components of a distributed voice assistant
(client/server Python application). Each Python module relevant to the
checked properties is shallowly embedded: pure functions become Lean
functions, stateful objects become explicit state-passing functions,
Python `float` values are modelled as rationals (`ℚ`), wall-clock
readings (`time.monotonic()`) are passed as explicit arguments, and
Python exceptions are modelled with `Except`/sum results.
-/

namespace VoiceAssistant

/-! ## Python string helpers

Shared models of the Python `str` methods used by the sources
(`strip`, `lower`, `rstrip`).  Python's `str.strip()` removes Unicode
whitespace; the inputs relevant here only contain ASCII whitespace, so
the model uses the ASCII whitespace set.  `str.lower()` is modelled on
the ASCII letters plus the German characters appearing in the sources.
-/

def isPySpace (c : Char) : Bool :=
  c = ' ' || c = '\t' || c = '\n' || c = '\x0d' || c = '\x0b' || c = '\x0c'

def pyLowerChar (c : Char) : Char :=
  if 'A' ≤ c ∧ c ≤ 'Z' then Char.ofNat (c.toNat + 32)
  else if c = 'Ä' then 'ä'
  else if c = 'Ö' then 'ö'
  else if c = 'Ü' then 'ü'
  else c

def pyLower (s : List Char) : List Char := s.map pyLowerChar

def pyStripLeft (s : List Char) : List Char := s.dropWhile (fun c => isPySpace c)

def pyStrip (s : List Char) : List Char :=
  ((pyStripLeft s).reverse.dropWhile (fun c => isPySpace c)).reverse

/-- Python `str.rstrip(chars)`: drop trailing characters from `chars`. -/
def pyRstrip (chars : List Char) (s : List Char) : List Char :=
  (s.reverse.dropWhile (fun c => c ∈ chars)).reverse

/-! ## `server/stt/filters.py` — hallucination filter -/

/-- The `_HALLUCINATION_PHRASES` set from `server/stt/filters.py`
(English and German Whisper hallucinations on silence/noise). -/
def hallucinationPhrases : List String :=
  [ "thank you for watching",
    "thanks for watching",
    "subscribe to my channel",
    "please subscribe",
    "like and subscribe",
    "see you in the next video",
    "see you next time",
    "bye bye",
    "thank you",
    "thanks for listening",
    "the end",
    "you",
    "i\x27m sorry",
    "danke fürs zuschauen",
    "danke für\x27s zuschauen",
    "vielen dank fürs zuschauen",
    "bis zum nächsten mal",
    "tschüss",
    "untertitel von stephanie geiges",
    "untertitel der amara.org-community",
    "untertitel im auftrag des zdf für funk" ]

/-- The normalisation applied to the transcript before the blocklist check:
`text.strip().lower().rstrip(".!?,")`. -/
def normalizeTranscript (text : String) : String :=
  String.mk (pyRstrip ['.', '!', '?', ','] (pyLower (pyStrip text.toList)))

/-- `check_hallucination` from `server/stt/filters.py`.  Returns
`(rejected, reason)`.  Probabilities and thresholds are Python floats,
modelled as rationals.  The two threshold reasons are f-strings embedding
the offending value with `%.2f` formatting; the numeric rendering is
abbreviated to `toString` of the rational (the checked property only
constrains the blocklist reason and the empty reason). -/
def check_hallucination (text : String) (no_speech_prob avg_logprob : ℚ)
    (no_speech_threshold : ℚ := 0.6) (logprob_threshold : ℚ := -1.0) :
    Bool × String :=
  if no_speech_threshold ≤ no_speech_prob then
    (true, "no_speech_prob=" ++ toString no_speech_prob)
  else if avg_logprob < logprob_threshold then
    (true, "avg_logprob=" ++ toString avg_logprob)
  else if normalizeTranscript text ∈ hallucinationPhrases then
    (true, "hallucination_blocklist")
  else
    (false, "")

/-! ## `server/assistant/session.py` — conversation history -/

/-- One history entry: a Python dict `{"role": ..., "content": ...}`. -/
structure Msg where
  role : String
  content : String
deriving DecidableEq

/-- `sum(len(m["content"]) for m in history)`. -/
def totalChars (h : List Msg) : Nat := (h.map (fun m => m.content.length)).sum

/-- The `while` loop of `Session._trim`: repeatedly drop the two oldest
messages while more than two remain (`len(history) > 2`, i.e. at least
three entries) and the estimated token count (`total_chars / 4`, Python
true division) exceeds the budget. -/
def trimBudget (budget : ℚ) : List Msg → List Msg
  | m1 :: m2 :: m3 :: rest =>
      if (totalChars (m1 :: m2 :: m3 :: rest) : ℚ) / 4 ≤ budget then
        m1 :: m2 :: m3 :: rest
      else trimBudget budget (m3 :: rest)
  | h => h

/-- The `Session` object from `server/assistant/session.py`. -/
structure Session where
  max_turns : Nat
  max_tokens_budget : ℚ
  history : List Msg

/-- The first step of `Session._trim`: cap the history at the last
`max_messages` entries (Python `history[-max_messages:]`; note that for
`max_messages = 0` the slice `[-0:]` is the whole list, which the model
reproduces). -/
def capHistory (maxMessages : Nat) (h : List Msg) : List Msg :=
  if maxMessages < h.length then
    if maxMessages = 0 then h else h.drop (h.length - maxMessages)
  else h

/-- `Session._trim`: cap at `max_turns * 2` messages, then run the
token-budget loop. -/
def Session.trim (s : Session) : Session :=
  { s with
    history := trimBudget s.max_tokens_budget (capHistory (s.max_turns * 2) s.history) }

/-- `Session.add_user_message`. -/
def Session.add_user_message (s : Session) (text : String) : Session :=
  Session.trim { s with history := s.history ++ [⟨"user", text⟩] }

/-- `Session.add_assistant_message`. -/
def Session.add_assistant_message (s : Session) (text : String) : Session :=
  Session.trim { s with history := s.history ++ [⟨"assistant", text⟩] }

/-- `Session.clear`. -/
def Session.clear (s : Session) : Session := { s with history := [] }

/-- A fresh session for a `conversation_config` with the given bounds. -/
def Session.init (maxTurns : Nat) (budget : ℚ) : Session := ⟨maxTurns, budget, []⟩

/-- Run a sequence of inserts (`true` = `add_user_message`,
`false` = `add_assistant_message`) against a session. -/
def Session.run (s : Session) (ops : List (Bool × String)) : Session :=
  ops.foldl (fun s op => if op.1 then s.add_user_message op.2
                         else s.add_assistant_message op.2) s

/-! ## `shared/protocol.py` — client → server message constructors

JSON text frames are modelled as tagged values; `encode_json` is
injective on the documented schemas, so a message is identified with its
field tuple.  Python float fields are modelled as rationals (the
`round(score, 3)` of `make_wake` is kept abstract as the rational score;
the checked properties never inspect it). -/

inductive WireText where
  | wake (score : ℚ)
  | utterance_audio (sample_rate : Nat) (samples : Nat)
  | barge_in
  | follow_up_timeout
deriving DecidableEq

def make_wake (score : ℚ) : WireText := .wake score

def make_utterance_meta (sample_rate : Nat) (num_samples : Nat) : WireText :=
  .utterance_audio sample_rate num_samples

def make_barge_in : WireText := .barge_in

def make_follow_up_timeout : WireText := .follow_up_timeout

/-- A WebSocket frame as buffered by the client: a JSON text frame or a
binary PCM frame. -/
inductive PyData where
  | text (t : WireText)
  | bytes (b : List Int)
deriving DecidableEq

/-! ## `client/connection.py` — offline send outbox

The outbox of `ServerConnection`: a deque of `(enqueue_timestamp, data)`
pairs.  `time.monotonic()` readings are passed explicitly as `now`. -/

structure ServerConnection where
  offline_send_buffer_size : Nat
  offline_send_ttl_s : ℚ
  offline_send_buffer : List (ℚ × PyData)

/-- `ServerConnection._drop_expired_offline_messages_locked`: pop entries
from the head while they are strictly older than the TTL (the loop breaks
at the first entry with `now - created ≤ ttl`). -/
def dropExpired (ttl now : ℚ) : List (ℚ × PyData) → List (ℚ × PyData)
  | [] => []
  | (created, d) :: rest =>
      if now - created ≤ ttl then (created, d) :: rest
      else dropExpired ttl now rest

/-- `ServerConnection._buffer_offline_send`: drop expired head entries,
drop the oldest entry if the buffer is full, then append the new entry. -/
def ServerConnection.buffer_offline_send (c : ServerConnection) (now : ℚ)
    (data : PyData) : ServerConnection :=
  let b := dropExpired c.offline_send_ttl_s now c.offline_send_buffer
  let b := if c.offline_send_buffer_size ≤ b.length then b.drop 1 else b
  { c with offline_send_buffer := b ++ [(now, data)] }

/-- `ServerConnection._drain_offline_send_buffer`: drop expired head
entries, then move every remaining entry, in FIFO order, into the send
queue (returned as the first component), leaving the buffer empty. -/
def ServerConnection.drain_offline_send_buffer (c : ServerConnection) (now : ℚ) :
    List PyData × ServerConnection :=
  let b := dropExpired c.offline_send_ttl_s now c.offline_send_buffer
  (b.map Prod.snd, { c with offline_send_buffer := [] })

/-- `send_wake` while disconnected (`_enqueue_send` falls through to
`_buffer_offline_send`). -/
def ServerConnection.send_wake_offline (c : ServerConnection) (now score : ℚ) :
    ServerConnection :=
  c.buffer_offline_send now (.text (make_wake score))

/-- `send_barge_in` while disconnected. -/
def ServerConnection.send_barge_in_offline (c : ServerConnection) (now : ℚ) :
    ServerConnection :=
  c.buffer_offline_send now (.text make_barge_in)

/-- `send_follow_up_timeout` while disconnected. -/
def ServerConnection.send_follow_up_timeout_offline (c : ServerConnection)
    (now : ℚ) : ServerConnection :=
  c.buffer_offline_send now (.text make_follow_up_timeout)

/-! ## `client/audio/vad.py` — utterance segmentation state machine

`UtteranceDetector` tracks speech onset and end-of-utterance.  Audio
frames are int16 sample lists; `time.monotonic()` readings are passed to
`process` explicitly as `now`. -/

inductive VadState where
  | waiting
  | collecting
  | complete
deriving DecidableEq

structure UtteranceDetector where
  silence_timeout_s : ℚ
  speech_onset_frames : Nat
  pre_buffer_size : Nat
  state : VadState
  consecutive_speech : Nat
  last_speech_time : ℚ
  audio_chunks : List (List Int)
  pre_buffer : List (List Int)

/-- The `UtteranceDetector.__init__` state for a `vad_config` with the
given `silence_timeout_ms` and `speech_onset_frames`
(`pre_buffer_size = speech_onset_frames + 4`). -/
def UtteranceDetector.init (silence_timeout_ms : ℚ) (speech_onset_frames : Nat) :
    UtteranceDetector :=
  ⟨silence_timeout_ms / 1000, speech_onset_frames, speech_onset_frames + 4,
    .waiting, 0, 0, [], []⟩

/-- `UtteranceDetector.reset`. -/
def UtteranceDetector.reset (d : UtteranceDetector) : UtteranceDetector :=
  { d with state := .waiting, consecutive_speech := 0, last_speech_time := 0,
           audio_chunks := [], pre_buffer := [] }

/-- The two pre-roll lines of `process` in the `waiting` state: append the
frame, then `pop(0)` if the ring exceeds `pre_buffer_size`. -/
def pushPreRoll (size : Nat) (pb : List (List Int)) (frame : List Int) :
    List (List Int) :=
  if size < (pb ++ [frame]).length then (pb ++ [frame]).drop 1 else pb ++ [frame]

/-- `UtteranceDetector.process(frame, is_speech)` with an explicit `now`
(the source reads `time.monotonic()`). -/
def UtteranceDetector.process (d : UtteranceDetector) (now : ℚ)
    (frame : List Int) (is_speech : Bool) : UtteranceDetector :=
  if d.state = .complete then d
  else
    let d1 :=
      if d.state = .waiting then
        { d with pre_buffer := pushPreRoll d.pre_buffer_size d.pre_buffer frame }
      else d
    if is_speech then
      let d2 := { d1 with consecutive_speech := d1.consecutive_speech + 1,
                          last_speech_time := now }
      if d2.state = .waiting ∧ d2.speech_onset_frames ≤ d2.consecutive_speech then
        { d2 with state := .collecting,
                  audio_chunks := d2.audio_chunks ++ d2.pre_buffer,
                  pre_buffer := [] }
      else if d2.state = .collecting then
        { d2 with audio_chunks := d2.audio_chunks ++ [frame] }
      else d2
    else
      let d2 := { d1 with consecutive_speech := 0 }
      if d2.state = .collecting then
        let d3 := { d2 with audio_chunks := d2.audio_chunks ++ [frame] }
        if d3.silence_timeout_s ≤ now - d3.last_speech_time then
          { d3 with state := .complete }
        else d3
      else d2

/-- Run `process` over a trace of `(now, frame, is_speech)` calls. -/
def UtteranceDetector.run (d : UtteranceDetector)
    (tr : List (ℚ × List Int × Bool)) : UtteranceDetector :=
  tr.foldl (fun d t => d.process t.1 t.2.1 t.2.2) d

/-- `UtteranceDetector.get_audio` (concatenation of collected frames). -/
def UtteranceDetector.get_audio (d : UtteranceDetector) : List Int :=
  d.audio_chunks.flatten

/-! ## `server/assistant/session.py` — aliasing model for the getters

Python lists are heap-allocated mutable objects; `Session.history` and
`Session.get_messages` both return `list(self._history)`, a fresh
shallow copy.  To state the frame property, list objects are modelled as
references into a store: `next_ref` counts allocations and the session's
own `_history` list lives at `session_ref`. -/

structure PyHeap where
  next_ref : Nat
  store : Nat → List Msg
  session_ref : Nat

/-- The `Session.history` property: `list(self._history)` allocates a
fresh list object holding a copy of the current contents and returns its
reference. -/
def PyHeap.history (h : PyHeap) : Nat × PyHeap :=
  (h.next_ref,
   { h with next_ref := h.next_ref + 1,
            store := fun r => if r = h.next_ref then h.store h.session_ref
                              else h.store r })

/-- `Session.get_messages` — the same `list(self._history)` copy. -/
def PyHeap.get_messages (h : PyHeap) : Nat × PyHeap := h.history

/-- An arbitrary in-place mutation of the list object at reference `r`
(append, remove, reorder, …). -/
def PyHeap.mutate (h : PyHeap) (r : Nat) (f : List Msg → List Msg) : PyHeap :=
  { h with store := fun q => if q = r then f (h.store q) else h.store q }

/-! ## `server/session_handler.py` — incremental TTS streaming

A TTS engine chunk as produced by `synthesize_chunks`:
`(audio_int16, sample_rate, is_last)`. -/

structure TtsChunk where
  audio : List Int
  sample_rate : Nat
  is_last : Bool
deriving DecidableEq

/-- A `tts_audio` meta as sent by `protocol.make_tts_audio_meta`. -/
structure TtsAudioMeta where
  sample_rate : Nat
  samples : Nat
  chunk_index : Nat
  is_last : Bool
deriving DecidableEq

/-- The send loop of `SessionHandler._stream_tts_incremental`: consume
engine chunks in order; a zero-length chunk is skipped (`continue`)
without sending; every other chunk is sent as a `tts_audio` meta +
binary pair with the running `chunk_index`, which is then incremented.
Mid-stream cancellation (the cancel flag is polled before each send)
cuts the sent sequence to a prefix, modelled with `List.take` in the
theorems. -/
def streamTtsSent : List TtsChunk → Nat → List TtsAudioMeta
  | [], _ => []
  | c :: rest, idx =>
      if c.audio.length = 0 then streamTtsSent rest idx
      else ⟨c.sample_rate, c.audio.length, idx, c.is_last⟩ :: streamTtsSent rest (idx + 1)

/-! ## `server/llm/openrouter_client.py` — retry/backoff of `chat`

Each HTTP attempt is modelled by an environment oracle: the attempt
either raises a network-level `requests.RequestException` or yields a
response with a status code and (for success) the text accumulated from
the SSE stream (the `data:` line parsing itself is not in scope of the
retry property and is abstracted to the resulting body text).  The
`time.sleep` calls are recorded; `random.uniform(0.0, b)` is modelled by
the jitter oracle, constrained in the theorems. -/

inductive AttemptOutcome where
  | netError
  | response (status : Nat) (body : String)
deriving DecidableEq

inductive ChatError where
  | requestError
  | httpError (status : Nat)
deriving DecidableEq

structure ChatRun where
  result : Except ChatError String
  attempts : Nat
  sleeps : List ℚ

/-- `OpenRouterClient._should_retry_status`. -/
def _should_retry_status (status_code : Nat) : Bool :=
  status_code == 429 || 500 ≤ status_code

/-- The delay slept before retry `attempt`:
`retry_base_delay_s * 2 ** attempt` plus the jitter drawn by
`random.uniform(0.0, base * 0.25)`. -/
def sleepDelay (retry_base_delay_s : ℚ) (jitter : Nat → ℚ) (attempt : Nat) : ℚ :=
  retry_base_delay_s * 2 ^ attempt + jitter attempt

/-- The `for attempt in range(attempts)` loop of `OpenRouterClient.chat`
(`attempts = max_retries + 1`).  A network error retries unless this was
the last attempt; a status ≥ 400 retries when `_should_retry_status` and
attempts remain, otherwise `raise_for_status` raises `HTTPError(status)`
(re-raised by the `except` clause); a status < 400 returns the streamed
text. -/
def chatLoop (env : Nat → AttemptOutcome) (max_retries : Nat) (base : ℚ)
    (jitter : Nat → ℚ) (a : Nat) : ChatRun :=
  match env a with
  | .netError =>
      if h : a < max_retries then
        let r := chatLoop env max_retries base jitter (a + 1)
        { r with sleeps := sleepDelay base jitter a :: r.sleeps }
      else ⟨.error .requestError, a + 1, []⟩
  | .response s body =>
      if 400 ≤ s then
        if h : _should_retry_status s = true ∧ a < max_retries then
          let r := chatLoop env max_retries base jitter (a + 1)
          { r with sleeps := sleepDelay base jitter a :: r.sleeps }
        else ⟨.error (.httpError s), a + 1, []⟩
      else ⟨.ok body, a + 1, []⟩
termination_by max_retries - a
decreasing_by all_goals omega

/-- `OpenRouterClient.chat` over the attempt-outcome oracle. -/
def OpenRouterClient.chat (env : Nat → AttemptOutcome) (max_retries : Nat)
    (base : ℚ) (jitter : Nat → ℚ) : ChatRun :=
  chatLoop env max_retries base jitter 0

/-! ## `shared/protocol.py make_error` and
`server/session_handler.py _on_utterance_audio` — protocol errors

`make_error` in `shared/protocol.py` accepts only `message` and `stage`;
the session handler calls it with an additional `code` keyword, so the
call is modelled at the Python call level: a keyword argument outside
the accepted parameter list raises `TypeError`. -/

inductive PyErr where
  | typeError
  | valueError
deriving DecidableEq

/-- `make_error(message, stage="")` from `shared/protocol.py`: a typed
error message with an optional stage (omitted when empty) — and no
`code` field. -/
structure ErrorMsg where
  message : String
  stage : Option String
deriving DecidableEq

def make_error (message : String) (stage : String := "") : ErrorMsg :=
  { message := message, stage := if stage = "" then none else some stage }

/-- The formal parameter names of `make_error`. -/
def make_error_params : List String := ["message", "stage"]

/-- A Python keyword-argument call of `make_error`: `TypeError` when a
keyword is not an accepted parameter. -/
def callMakeError (kwargs : List (String × String)) : Except PyErr ErrorMsg :=
  if kwargs.all (fun kv => kv.1 ∈ make_error_params) then
    .ok (make_error (((kwargs.lookup "message").getD ""))
          (((kwargs.lookup "stage").getD "")))
  else .error .typeError

/-- A JSON value of an `utterance_audio` meta field, with Python `int()`
conversion semantics: ints pass through, floats truncate toward zero,
strings parse or raise `ValueError`, `None` raises `TypeError`. -/
inductive PyVal where
  | int (n : Int)
  | float (q : ℚ)
  | str (s : String)
  | none
deriving DecidableEq

/-- Python `int(str)`: optional surrounding whitespace, optional sign,
then at least one decimal digit; anything else raises `ValueError`. -/
def pyParseInt (s : String) : Option Int :=
  match pyStrip s.toList with
  | [] => Option.none
  | c :: rest =>
      let neg := c = '-'
      let digits := if c = '-' ∨ c = '+' then rest else c :: rest
      if digits ≠ [] ∧ digits.all (fun d => '0' ≤ d ∧ d ≤ '9') then
        let n : Nat := digits.foldl (fun acc d => acc * 10 + (d.toNat - 48)) 0
        some (if neg then -(n : Int) else (n : Int))
      else Option.none

def pyInt : PyVal → Except PyErr Int
  | .int n => .ok n
  | .float q => .ok (if 0 ≤ q then ⌊q⌋ else ⌈q⌉)
  | .str s => match pyParseInt s with
      | some n => .ok n
      | Option.none => .error .valueError
  | .none => .error .typeError

/-- An observable action of `_on_utterance_audio`. -/
inductive HandlerAction where
  | sent_error (e : ErrorMsg)
  | spawned_pipeline (audio : List Int) (sample_rate : Int)
deriving DecidableEq

/-- One protocol-error reply of `_on_utterance_audio`: the handler
builds `protocol.make_error(message, stage="protocol", code=code)` and
sends it.  The keyword call is evaluated before the `await send_text`;
a raised `TypeError` escapes the handler with nothing sent. -/
def sendProtocolError (message code : String) : Except PyErr (List HandlerAction) :=
  match callMakeError [("message", message), ("stage", "protocol"), ("code", code)] with
  | .ok e => .ok [.sent_error e]
  | .error err => .error err

/-- `SessionHandler._on_utterance_audio` as a function of the meta field
values, the following frame (`some audio` when a binary frame follows,
`none` otherwise) and the configured `audio_mismatch_reject_ratio`.
Returns the actions performed, or the Python exception escaping the
handler. -/
def on_utterance_audio (reject_ratio : ℚ) (meta_sample_rate meta_samples : PyVal)
    (next_frame : Option (List Int)) : Except PyErr (List HandlerAction) :=
  match pyInt meta_sample_rate, pyInt meta_samples with
  | .ok sample_rate, .ok expected_samples =>
      if sample_rate ≤ 0 ∨ expected_samples < 0 then
        sendProtocolError "Invalid audio metadata." "protocol_invalid_audio_meta"
      else
        match next_frame with
        | Option.none =>
            sendProtocolError "Expected binary audio frame after utterance metadata."
              "protocol_expected_audio_binary"
        | some audio =>
            let actual : Int := audio.length
            if actual ≠ expected_samples then
              let mismatch_ratio : ℚ :=
                |(actual : ℚ) - (expected_samples : ℚ)|
                  / (max (actual : ℚ) (max (expected_samples : ℚ) 1))
              if reject_ratio < mismatch_ratio then
                sendProtocolError "Audio payload did not match metadata."
                  "protocol_audio_size_mismatch"
              else .ok [.spawned_pipeline audio sample_rate]
            else .ok [.spawned_pipeline audio sample_rate]
  | _, _ =>
      sendProtocolError "Invalid audio metadata." "protocol_invalid_audio_meta"

/-! ## `audio/ring_buffer.py` — circular int16 sample buffer

The pre-allocated numpy array is modelled as a total function on
indices (only indices `< capacity` are ever read); the mutex serialises
access and is not modelled. -/

structure RingBuffer where
  capacity : Nat
  buf : Nat → Int
  write_pos : Nat
  total_written : Nat

/-- `RingBuffer.__init__`: a zeroed buffer of the given capacity
(`int(max_seconds * sample_rate)`). -/
def RingBuffer.init (capacity : Nat) : RingBuffer := ⟨capacity, fun _ => 0, 0, 0⟩

/-- `RingBuffer.write`: append samples, wrapping around; a write at
least as large as the buffer keeps only the tail (`data[-capacity:]`)
and resets the write position. -/
def RingBuffer.write (rb : RingBuffer) (data : List Int) : RingBuffer :=
  let n := data.length
  if rb.capacity ≤ n then
    { rb with
      buf := fun i => (data.drop (n - rb.capacity)).getD i 0,
      write_pos := 0,
      total_written := rb.total_written + n }
  else if rb.write_pos + n ≤ rb.capacity then
    { rb with
      buf := fun i =>
        if rb.write_pos ≤ i ∧ i < rb.write_pos + n then data.getD (i - rb.write_pos) 0
        else rb.buf i,
      write_pos := (rb.write_pos + n) % rb.capacity,
      total_written := rb.total_written + n }
  else
    { rb with
      buf := fun i =>
        if rb.write_pos ≤ i ∧ i < rb.capacity then data.getD (i - rb.write_pos) 0
        else if i < n - (rb.capacity - rb.write_pos) then
          data.getD (rb.capacity - rb.write_pos + i) 0
        else rb.buf i,
      write_pos := (rb.write_pos + n) % rb.capacity,
      total_written := rb.total_written + n }

/-- `RingBuffer.read_last(num_samples)`: the most recent
`min(num_samples, total_written, capacity)` samples in order.  Python's
`(write_pos - available) % capacity` on a possibly negative left operand
equals `(write_pos + capacity - available) % capacity` here since
`write_pos < capacity` and `available ≤ capacity`. -/
def RingBuffer.read_last (rb : RingBuffer) (num_samples : Nat) : List Int :=
  let available := min num_samples (min rb.total_written rb.capacity)
  if available = 0 then []
  else
    let start := (rb.write_pos + rb.capacity - available) % rb.capacity
    if start + available ≤ rb.capacity then
      (List.range available).map (fun i => rb.buf (start + i))
    else
      (List.range (rb.capacity - start)).map (fun i => rb.buf (start + i))
        ++ (List.range (available - (rb.capacity - start))).map (fun i => rb.buf i)

/-- The coupling invariant between a `RingBuffer` and the concatenation
`c` of everything written so far: the last `min(len c, capacity)`
samples of `c` sit cyclically before the write position. -/
def rbInv (cap : Nat) (rb : RingBuffer) (c : List Int) : Prop :=
  rb.capacity = cap ∧ rb.write_pos < cap ∧ rb.total_written = c.length
  ∧ ∀ j, j < min c.length cap →
      rb.buf ((rb.write_pos + cap - 1 - j) % cap) = c.getD (c.length - 1 - j) 0

/-! ## `server/llm/prompt.py` — `clean_for_tts`

The sanitizer is a pipeline of `re.sub` passes, a line filter, and a
final `strip`.  Only `\n` line endings are modelled (`str.splitlines`
also splits `\r`, which does not occur in the relevant texts).

Regex machinery: each `re.sub(pattern, repl, text)` of
`clean_for_tts` is modelled by a hand-rolled matcher returning, at a
given position, `some (consumed, replacement)` for the leftmost-longest
match the pattern's greedy/backtracking semantics produce there, or
`none`.  A driver scans left to right, emitting replacements and never
rescanning replaced text, exactly as `re.sub` does.  Matchers never
match the empty string (every pattern of the source consumes at least
one character). -/

/-- The `re.sub` scan for unanchored patterns (fuel = input length). -/
def pySub (m : List Char → Option (Nat × List Char)) :
    Nat → List Char → List Char
  | 0, s => s
  | _ + 1, [] => []
  | fuel + 1, c :: rest =>
      match m (c :: rest) with
      | some (k, rep) => rep ++ pySub m fuel (rest.drop (k - 1))
      | none => c :: pySub m fuel rest

/-- The `re.sub` scan for `re.MULTILINE` `^`-anchored patterns: the
matcher is tried only at line starts (position 0 or right after a
newline of the original text). -/
def pySubML (m : List Char → Option (Nat × List Char)) :
    Nat → Bool → List Char → List Char
  | 0, _, s => s
  | _ + 1, _, [] => []
  | fuel + 1, atStart, c :: rest =>
      match (if atStart then m (c :: rest) else none) with
      | some (k, rep) =>
          rep ++ pySubML m fuel (((c :: rest).take k).getLast? = some '\n')
            (rest.drop (k - 1))
      | none => c :: pySubML m fuel (c = '\n') rest

def runSub (m : List Char → Option (Nat × List Char)) (s : List Char) :
    List Char := pySub m s.length s

def runSubML (m : List Char → Option (Nat × List Char)) (s : List Char) :
    List Char := pySubML m s.length true s

def isAsciiDigit (c : Char) : Bool := '0' ≤ c && c ≤ '9'

/-- `\w` (restricted to the ASCII range, which covers the texts these
patterns target). -/
def isWordChar (c : Char) : Bool :=
  ('a' ≤ c && c ≤ 'z') || ('A' ≤ c && c ≤ 'Z') || isAsciiDigit c || c = '_'

def isPunctChar (c : Char) : Bool :=
  c = ',' || c = '.' || c = ';' || c = ':' || c = '!' || c = '?'

/-- Case-sensitive literal at the head. -/
def litStarts (kw s : List Char) : Bool := s.take kw.length == kw

/-- Case-insensitive literal at the head (`re.IGNORECASE`). -/
def ciStarts (kw s : List Char) : Bool := (s.take kw.length).map pyLowerChar == kw

/-- `.*?` (DOTALL, lazy): from a ``, up to and
including the nearest ``. -/
def mCitationE (s : List Char) : Option (Nat × List Char) :=
  match s with
  | c :: rest =>
      if c = '' then
        match rest.findIdx? (fun d => d = '') with
        | some i => some (i + 2, [])
        | none => none
      else none
  | [] => none

/-- `[【〖][^】〗]+[】〗]`. -/
def mCjkBracket (s : List Char) : Option (Nat × List Char) :=
  match s with
  | c :: rest =>
      if c = '【' || c = '〖' then
        let content := rest.takeWhile (fun d => !(d = '】' || d = '〗'))
        if 1 ≤ content.length && content.length < rest.length then
          some (1 + content.length + 1, [])
        else none
      else none
  | [] => none

/-- `\[([^\]]+)\]\([^)]+\)` → the label. -/
def mMdLink (s : List Char) : Option (Nat × List Char) :=
  match s with
  | '[' :: rest =>
      let label := rest.takeWhile (fun d => !(d = ']'))
      if 1 ≤ label.length && label.length < rest.length then
        match rest.drop (label.length + 1) with
        | '(' :: rest2 =>
            let target := rest2.takeWhile (fun d => !(d = ')'))
            if 1 ≤ target.length && target.length < rest2.length then
              some (1 + label.length + 1 + 1 + target.length + 1, label)
            else none
        | _ => none
      else none
  | _ => none

/-- `https?://\S+` (case-sensitive). -/
def mUrl (s : List Char) : Option (Nat × List Char) :=
  let go (lit : List Char) : Option (Nat × List Char) :=
    if litStarts lit s then
      let run := (s.drop lit.length).takeWhile (fun d => !isPySpace d)
      if 1 ≤ run.length then some (lit.length + run.length, []) else none
    else none
  match go "https://".toList with
  | some r => some r
  | none => go "http://".toList

/-- The `(?:[,\s]*\d+)*` iteration of the numeric-citation pattern. -/
def numIter : Nat → List Char → Nat × List Char
  | 0, l => (0, l)
  | fuel + 1, l =>
      let sep := l.takeWhile (fun c => c = ',' || isPySpace c)
      let afterSep := l.drop sep.length
      let dig := afterSep.takeWhile isAsciiDigit
      if 1 ≤ dig.length then
        let (n, r) := numIter fuel (afterSep.drop dig.length)
        (sep.length + dig.length + n, r)
      else (0, l)

/-- `\[\d+(?:[,\s]*\d+)*\]`. -/
def mNumCite (s : List Char) : Option (Nat × List Char) :=
  match s with
  | '[' :: rest =>
      let dig := rest.takeWhile isAsciiDigit
      if 1 ≤ dig.length then
        let (n, r) := numIter rest.length (rest.drop dig.length)
        match r with
        | ']' :: _ => some (1 + dig.length + n + 1, [])
        | _ => none
      else none
  | _ => none

/-- `\[(?:source|citation|ref)\w*\]` (IGNORECASE). -/
def mSourceWordBracket (s : List Char) : Option (Nat × List Char) :=
  match s with
  | '[' :: rest =>
      let try1 (kw : List Char) : Option (Nat × List Char) :=
        if ciStarts kw rest then
          let run := (rest.drop kw.length).takeWhile isWordChar
          match rest.drop (kw.length + run.length) with
          | ']' :: _ => some (1 + kw.length + run.length + 1, [])
          | _ => none
        else none
      match try1 "source".toList with
      | some r => some r
      | none =>
        match try1 "citation".toList with
        | some r => some r
        | none => try1 "ref".toList
  | _ => none

/-- `\[(?:source|sources|citation|citations|ref\w*|quelle|quellen)[^\]]*\]`
(IGNORECASE): after a recognised keyword the flexible `[^\]]*` tail runs
to the first `]`. -/
def mSourceBracket (s : List Char) : Option (Nat × List Char) :=
  match s with
  | '[' :: rest =>
      if ["source", "sources", "citation", "citations", "ref", "quelle",
          "quellen"].any (fun kw => ciStarts kw.toList rest) then
        match rest.findIdx? (fun d => d = ']') with
        | some i => some (1 + i + 1, [])
        | none => none
      else none
  | _ => none

/-- `\[\^(?:\d+|source|ref\w*)\]` (IGNORECASE). -/
def mFootnote (s : List Char) : Option (Nat × List Char) :=
  match s with
  | '[' :: '^' :: rest =>
      let dig := rest.takeWhile isAsciiDigit
      if 1 ≤ dig.length then
        match rest.drop dig.length with
        | ']' :: _ => some (2 + dig.length + 1, [])
        | _ => none
      else if ciStarts "source".toList rest then
        match rest.drop 6 with
        | ']' :: _ => some (2 + 6 + 1, [])
        | _ => none
      else if ciStarts "ref".toList rest then
        let run := (rest.drop 3).takeWhile isWordChar
        match rest.drop (3 + run.length) with
        | ']' :: _ => some (2 + 3 + run.length + 1, [])
        | _ => none
      else none
  | _ => none

/-- One alternative of the parenthetical-source pattern:
`kw\s*:[^)]+\)` after the opening paren. -/
def parenAlt (kw : List Char) (rest : List Char) : Option (Nat × List Char) :=
  if ciStarts kw rest then
    let sp := (rest.drop kw.length).takeWhile isPySpace
    match rest.drop (kw.length + sp.length) with
    | ':' :: rest2 =>
        let content := rest2.takeWhile (fun d => !(d = ')'))
        if 1 ≤ content.length && content.length < rest2.length then
          some (1 + kw.length + sp.length + 1 + content.length + 1, [])
        else none
    | _ => none
  else none

/-- `\((?:source|sources|citation|citations|reference|references|quelle|quellen)\s*:[^)]+\)`
(IGNORECASE), alternatives tried in order. -/
def mParenSource (s : List Char) : Option (Nat × List Char) :=
  match s with
  | '(' :: rest =>
      ["source", "sources", "citation", "citations", "reference",
       "references", "quelle", "quellen"].foldl
        (fun acc kw => match acc with
          | some r => some r
          | none => parenAlt kw.toList rest) none
  | _ => none

/-- The keyword candidates of `sources?|references?|citations?|quellen?`
in greedy try-order. -/
def sourceLineKws : List (List Char) :=
  ["sources".toList, "source".toList, "references".toList, "reference".toList,
   "citations".toList, "citation".toList, "quellen".toList, "quelle".toList]

/-- The trailing `\s*$` of the multiline source-header pattern: the
longest whitespace run after which the position is end-of-string or
just before a newline (re backtracks the greedy `\s*` to satisfy `$`). -/
def trailEnd (rest : List Char) : Option Nat :=
  let tr := rest.takeWhile isPySpace
  if rest.drop tr.length = [] then some tr.length
  else
    match tr.reverse.findIdx? (fun d => d = '\n') with
    | some iRev => some (tr.length - 1 - iRev)
    | none => none

/-- `(?im)^\s*(?:sources?|references?|citations?|quellen?)\s*:\s*$`. -/
def mSourceLine (s : List Char) : Option (Nat × List Char) :=
  let lead := s.takeWhile isPySpace
  let afterLead := s.drop lead.length
  sourceLineKws.foldl
    (fun acc kw => match acc with
      | some r => some r
      | none =>
        if ciStarts kw afterLead then
          let mid := (afterLead.drop kw.length).takeWhile isPySpace
          match afterLead.drop (kw.length + mid.length) with
          | ':' :: rest2 =>
              match trailEnd rest2 with
              | some j => some (lead.length + kw.length + mid.length + 1 + j, [])
              | none => none
          | _ => none
        else none) none

/-- `[¹²³⁴⁵⁶⁷⁸⁹⁰]+`. -/
def mSuperscripts (s : List Char) : Option (Nat × List Char) :=
  let run := s.takeWhile (fun c =>
    c = '¹' || c = '²' || c = '³' || c = '⁴' || c = '⁵' || c = '⁶' || c = '⁷'
      || c = '⁸' || c = '⁹' || c = '⁰')
  if 1 ≤ run.length then some (run.length, []) else none

/-- `\*{1,3}([^*]+)\*{1,3}` → the content: the opening run must be 1–3
stars (a longer run leaves `[^*]+` nothing to match), the closing run
consumes at most 3 stars. -/
def mBold (s : List Char) : Option (Nat × List Char) :=
  let stars := s.takeWhile (fun c => c = '*')
  if 1 ≤ stars.length && stars.length ≤ 3 then
    let content := (s.drop stars.length).takeWhile (fun c => !(c = '*'))
    if 1 ≤ content.length then
      let closing := (s.drop (stars.length + content.length)).takeWhile
        (fun c => c = '*')
      if 1 ≤ closing.length then
        some (stars.length + content.length + min 3 closing.length, content)
      else none
    else none
  else none

/-- `^#{1,6}\s+` (MULTILINE). -/
def mHeading (s : List Char) : Option (Nat × List Char) :=
  let hashes := s.takeWhile (fun c => c = '#')
  if 1 ≤ hashes.length && hashes.length ≤ 6 then
    let sp := (s.drop hashes.length).takeWhile isPySpace
    if 1 ≤ sp.length then some (hashes.length + sp.length, []) else none
  else none

/-- `^\s*[-*•]\s+` (MULTILINE). -/
def mBullet (s : List Char) : Option (Nat × List Char) :=
  let lead := s.takeWhile isPySpace
  match s.drop lead.length with
  | c :: rest =>
      if c = '-' || c = '*' || c = '•' then
        let sp := rest.takeWhile isPySpace
        if 1 ≤ sp.length then some (lead.length + 1 + sp.length, []) else none
      else none
  | [] => none

/-- Split on newlines like `str.splitlines()` (the sources only contain
`\n` line endings): a trailing newline does not yield a final empty
line. -/
def splitNlAux : List Char → List Char × List (List Char)
  | [] => ([], [])
  | c :: rest =>
      let (cur, ls) := splitNlAux rest
      if c = '\n' then ([], cur :: ls) else (c :: cur, ls)

def splitLines (s : List Char) : List (List Char) :=
  let (cur, ls) := splitNlAux s
  let pieces := cur :: ls
  if pieces.getLast? = some [] then pieces.dropLast else pieces

/-- `^(?:sources?|references?|citations?|quellen?)\s*:?\s*$` (re.match,
IGNORECASE) against a stripped line. -/
def isSourceHeaderLine (stripped : List Char) : Bool :=
  sourceLineKws.any (fun kw =>
    ciStarts kw stripped &&
      (let r := stripped.drop kw.length
       let sp1 := r.takeWhile isPySpace
       match r.drop sp1.length with
       | [] => true
       | ':' :: r2 => (r2.dropWhile isPySpace).isEmpty
       | _ => false))

/-- The leading `\[\d+\]|\d+[.)]` of the numeric list-item patterns:
returns the rest after the citation marker. -/
def citMarker (stripped : List Char) : Option (List Char) :=
  match stripped with
  | '[' :: rest =>
      let dig := rest.takeWhile isAsciiDigit
      if 1 ≤ dig.length then
        match rest.drop dig.length with
        | ']' :: r2 => some r2
        | _ => none
      else none
  | _ =>
      let dig := stripped.takeWhile isAsciiDigit
      if 1 ≤ dig.length then
        match stripped.drop dig.length with
        | '.' :: r2 => some r2
        | ')' :: r2 => some r2
        | _ => none
      else none

/-- `https?://\S+|www\.\S+` (IGNORECASE) at the head: the rest after the
URL token. -/
def urlToken (s : List Char) : Option (List Char) :=
  let go (lit : List Char) : Option (List Char) :=
    if ciStarts lit s then
      let run := (s.drop lit.length).takeWhile (fun d => !isPySpace d)
      if 1 ≤ run.length then some (s.drop (lit.length + run.length)) else none
    else none
  match go "https://".toList with
  | some r => some r
  | none =>
    match go "http://".toList with
    | some r => some r
    | none => go "www.".toList

/-- The `for line in text.splitlines()` filter: drop source headers,
bare numeric list markers, numeric list items pointing at URLs, and
bare URL lines. -/
def keepLine (line : List Char) : Bool :=
  let stripped := pyStrip line
  let dropB : Bool :=
    match citMarker stripped with
    | some r => (r.dropWhile isPySpace).isEmpty
    | none => false
  let dropC : Bool :=
    match citMarker stripped with
    | some r =>
        (match urlToken (r.dropWhile isPySpace) with
          | some r3 => (r3.dropWhile isPySpace).isEmpty
          | none => false)
    | none => false
  let dropD : Bool :=
    match urlToken stripped with
    | some r => (r.dropWhile isPySpace).isEmpty
    | none => false
  if stripped.isEmpty then true
  else if isSourceHeaderLine stripped then false
  else if dropB then false
  else if dropC then false
  else if dropD then false
  else true

/-- `[ \t]+\n` → `\n`. -/
def mTrailWs (s : List Char) : Option (Nat × List Char) :=
  let run := s.takeWhile (fun c => c = ' ' || c = '\t')
  if 1 ≤ run.length then
    match s.drop run.length with
    | '\n' :: _ => some (run.length + 1, ['\n'])
    | _ => none
  else none

/-- `\n{2,}` → `". "`. -/
def mMultiNl (s : List Char) : Option (Nat × List Char) :=
  let run := s.takeWhile (fun c => c = '\n')
  if 2 ≤ run.length then some (run.length, ['.', ' ']) else none

/-- `\n` → `" "`. -/
def mSingleNl (s : List Char) : Option (Nat × List Char) :=
  match s with
  | '\n' :: _ => some (1, [' '])
  | _ => none

/-- `"  +"` (two or more spaces) → one space. -/
def mSpaces (s : List Char) : Option (Nat × List Char) :=
  let run := s.takeWhile (fun c => c = ' ')
  if 2 ≤ run.length then some (run.length, [' ']) else none

/-- `\s+([,.;:!?])` → the punctuation character. -/
def mSpacePunct (s : List Char) : Option (Nat × List Char) :=
  let run := s.takeWhile isPySpace
  if 1 ≤ run.length then
    match s.drop run.length with
    | c :: _ => if isPunctChar c then some (run.length + 1, [c]) else none
    | [] => none
  else none

/-- `([,.;:!?]){2,}` → `\1`, which is the last repetition. -/
def mPunctDup (s : List Char) : Option (Nat × List Char) :=
  let run := s.takeWhile isPunctChar
  if 2 ≤ run.length then
    match run.getLast? with
    | some c => some (run.length, [c])
    | none => none
  else none

/-- `clean_for_tts` from `server/llm/prompt.py`: the full substitution
pipeline, in source order. -/
def clean_for_tts (text : String) : String :=
  let s := text.toList
  let s := runSub mCitationE s
  let s := runSub mCjkBracket s
  let s := runSub mMdLink s
  let s := runSub mUrl s
  let s := runSub mNumCite s
  let s := runSub mSourceWordBracket s
  let s := runSub mSourceBracket s
  let s := runSub mFootnote s
  let s := runSub mParenSource s
  let s := runSubML mSourceLine s
  let s := runSub mSuperscripts s
  let s := runSub mBold s
  let s := runSubML mHeading s
  let s := runSubML mBullet s
  let s := List.intercalate ['\n'] ((splitLines s).filter keepLine)
  let s := runSub mTrailWs s
  let s := runSub mMultiNl s
  let s := runSub mSingleNl s
  let s := runSub mSpaces s
  let s := runSub mSpacePunct s
  let s := runSub mPunctDup s
  String.mk (pyStrip s)


/-! ## Theorems -/

theorem trimBudget_suffix (budget : ℚ) (h : List Msg) :
    ∃ k, trimBudget budget h = h.drop k
      ∧ ((trimBudget budget h).length ≤ 2
          ∨ (totalChars (trimBudget budget h) : ℚ) / 4 ≤ budget)
      ∧ (h ≠ [] → trimBudget budget h ≠ []) := by
  have main : ∀ (n : Nat) (h : List Msg), h.length ≤ n →
      ∃ k, trimBudget budget h = h.drop k
        ∧ ((trimBudget budget h).length ≤ 2
            ∨ (totalChars (trimBudget budget h) : ℚ) / 4 ≤ budget)
        ∧ (h ≠ [] → trimBudget budget h ≠ []) := by
    intro n
    induction n with
    | zero =>
      intro h hl
      have hnil : h = [] := List.length_eq_zero.mp (Nat.le_zero.mp hl)
      subst hnil
      exact ⟨0, rfl, Or.inl (by simp [trimBudget]), fun hc => absurd rfl hc⟩
    | succ n ih =>
      intro h hl
      rcases h with _ | ⟨m1, _ | ⟨m2, _ | ⟨m3, rest⟩⟩⟩
      · exact ⟨0, rfl, Or.inl (by simp [trimBudget]), fun hc => absurd rfl hc⟩
      · exact ⟨0, rfl, Or.inl (by simp [trimBudget]), by simp [trimBudget]⟩
      · exact ⟨0, rfl, Or.inl (by simp [trimBudget]), by simp [trimBudget]⟩
      · by_cases hb : (totalChars (m1 :: m2 :: m3 :: rest) : ℚ) / 4 ≤ budget
        · exact ⟨0, by simp [trimBudget, hb], Or.inr (by simp [trimBudget, hb]),
            by simp [trimBudget, hb]⟩
        · obtain ⟨k, hk, hdis, hne⟩ := ih (m3 :: rest) (by simp at hl ⊢; omega)
          have heq : trimBudget budget (m1 :: m2 :: m3 :: rest)
              = trimBudget budget (m3 :: rest) := by
            simp [trimBudget, hb]
          refine ⟨k + 2, ?_, ?_, ?_⟩
          · rw [heq, hk]; simp [List.drop_succ_cons]
          · rw [heq]; exact hdis
          · intro _; rw [heq]; exact hne (by simp)
  exact main h.length h le_rfl

theorem getLast?_drop_of_ne_nil (l : List Msg) (k : Nat) (h : l.drop k ≠ []) :
    (l.drop k).getLast? = l.getLast? := by
  conv_rhs => rw [← List.take_append_drop k l]
  rw [List.getLast?_append_of_ne_nil _ h]

theorem capHistory_spec (mm : Nat) (h : List Msg) :
    ∃ k1, capHistory mm h = h.drop k1
      ∧ (1 ≤ mm → (capHistory mm h).length ≤ mm)
      ∧ (h ≠ [] → capHistory mm h ≠ []) := by
  unfold capHistory
  split_ifs with h1 h2
  · exact ⟨0, by simp, fun hmm => absurd h2 (by omega), fun h => h⟩
  · refine ⟨h.length - mm, rfl, fun _ => ?_, fun _ => ?_⟩
    · simp [List.length_drop]; omega
    · have hlen : (h.drop (h.length - mm)).length = mm := by
        simp [List.length_drop]; omega
      intro hc
      rw [hc] at hlen
      simp at hlen
      omega
  · exact ⟨0, by simp, fun _ => by omega, fun h => h⟩

theorem Session.trim_spec (s : Session) :
    ∃ k, s.trim.history = s.history.drop k
      ∧ (s.history ≠ [] →
          s.trim.history ≠ [] ∧ s.trim.history.getLast? = s.history.getLast?)
      ∧ (1 ≤ s.max_turns →
          (s.trim.history.length ≤ 2 * s.max_turns
             ∧ (totalChars s.trim.history : ℚ) / 4 ≤ s.max_tokens_budget)
          ∨ s.trim.history.length ≤ 2) := by
  obtain ⟨k1, hk1, hlen1, hne1⟩ := capHistory_spec (s.max_turns * 2) s.history
  obtain ⟨k2, hk2, hdis2, hne2⟩ := trimBudget_suffix s.max_tokens_budget
    (capHistory (s.max_turns * 2) s.history)
  have htrim : s.trim.history
      = trimBudget s.max_tokens_budget (capHistory (s.max_turns * 2) s.history) := by
    simp [Session.trim]
  have hdrop : s.trim.history = (s.history.drop k1).drop k2 := by
    rw [htrim, hk2, hk1]
  have hdrop' : s.trim.history = s.history.drop (k1 + k2) := by
    rw [hdrop, List.drop_drop]
  refine ⟨k1 + k2, hdrop', ?_, ?_⟩
  · intro hne
    have hne2' := hne2 (hne1 hne)
    constructor
    · rw [htrim]; exact hne2'
    · rw [hdrop']
      apply getLast?_drop_of_ne_nil
      rw [← hdrop', htrim]
      exact hne2'
  · intro hmt
    rcases hdis2 with hle | hbud
    · right; rw [htrim]; exact hle
    · left
      constructor
      · have hlen := hlen1 (by omega)
        have hle2 : s.trim.history.length
            ≤ (capHistory (s.max_turns * 2) s.history).length := by
          rw [htrim, hk2]; simp [List.length_drop]
        omega
      · rw [htrim]; exact hbud

theorem Session.run_config (s : Session) (ops : List (Bool × String)) :
    (s.run ops).max_turns = s.max_turns
      ∧ (s.run ops).max_tokens_budget = s.max_tokens_budget := by
  induction ops generalizing s with
  | nil => exact ⟨rfl, rfl⟩
  | cons op rest ih =>
    have hstep : ∀ t : Session, (Session.run t (op :: rest)) =
        Session.run (if op.1 then t.add_user_message op.2
                     else t.add_assistant_message op.2) rest := by
      intro t
      simp only [Session.run, List.foldl_cons]
    rw [hstep]
    have h2 := ih (if op.1 then s.add_user_message op.2
                   else s.add_assistant_message op.2)
    rcases h2 with ⟨ha, hb⟩
    rw [ha, hb]
    split_ifs <;>
      simp [Session.add_user_message, Session.add_assistant_message, Session.trim]

/-- C4 (amended): for every session built from a sequence of inserts,
after each insert either (`len(history) ≤ 2 × max_turns` and
`sum(len(content))/4 ≤ max_tokens_budget`) or at most two messages
remain (assuming `max_turns ≥ 1`); trimming only ever removes the oldest
messages (the surviving history is a suffix of the pre-trim history) and
always preserves at least the most recent message. -/
theorem session_trimming_bounds (mt : Nat) (budget : ℚ)
    (ops : List (Bool × String)) (t : Session) (hmt : 1 ≤ mt) :
    ((((Session.init mt budget).run ops).history.length ≤ 2 * mt
        ∧ (totalChars ((Session.init mt budget).run ops).history : ℚ) / 4 ≤ budget)
      ∨ ((Session.init mt budget).run ops).history.length ≤ 2)
    ∧ (∃ k, t.trim.history = t.history.drop k
        ∧ (t.history ≠ [] →
            t.trim.history ≠ [] ∧ t.trim.history.getLast? = t.history.getLast?)) := by
  constructor
  · induction ops using List.reverseRecOn with
    | nil => right; simp [Session.run, Session.init]
    | append_singleton rest op _ =>
      have hrun : (Session.init mt budget).run (rest ++ [op])
          = (if op.1
              then ((Session.init mt budget).run rest).add_user_message op.2
              else ((Session.init mt budget).run rest).add_assistant_message op.2) := by
        simp [Session.run, List.foldl_append]
      rw [hrun]
      have hcfg := Session.run_config (Session.init mt budget) rest
      set s' := (Session.init mt budget).run rest with hs'
      have hmt' : s'.max_turns = mt := hcfg.1
      have hbud' : s'.max_tokens_budget = budget := hcfg.2
      split_ifs with hop
      · obtain ⟨k, _, _, hbound⟩ :=
          Session.trim_spec { s' with history := s'.history ++ [⟨"user", op.2⟩] }
        have := hbound (by simp [hmt']; omega)
        simpa [Session.add_user_message, hmt', hbud'] using this
      · obtain ⟨k, _, _, hbound⟩ :=
          Session.trim_spec { s' with history := s'.history ++ [⟨"assistant", op.2⟩] }
        have := hbound (by simp [hmt']; omega)
        simpa [Session.add_assistant_message, hmt', hbud'] using this
  · obtain ⟨k, hk, hpres, _⟩ := Session.trim_spec t
    exact ⟨k, hk, hpres⟩

/-- C4 witness: the amended bound instantiated at a concrete session. -/
theorem session_trimming_bounds_witness :
    ((((Session.init 1 100).run [(true, "hi")]).history.length ≤ 2 * 1
        ∧ (totalChars (((Session.init 1 100).run [(true, "hi")]).history) : ℚ) / 4 ≤ 100)
      ∨ (((Session.init 1 100).run [(true, "hi")]).history.length ≤ 2))
    ∧ (∃ k, (Session.trim ⟨1, 0, [⟨"user", "aaaa"⟩]⟩).history
            = (Session.mk 1 0 [⟨"user", "aaaa"⟩]).history.drop k
        ∧ ((Session.mk 1 0 [⟨"user", "aaaa"⟩]).history ≠ [] →
            (Session.trim ⟨1, 0, [⟨"user", "aaaa"⟩]⟩).history ≠ []
              ∧ (Session.trim ⟨1, 0, [⟨"user", "aaaa"⟩]⟩).history.getLast?
                = (Session.mk 1 0 [⟨"user", "aaaa"⟩]).history.getLast?)) :=
  session_trimming_bounds 1 100 [(true, "hi")] ⟨1, 0, [⟨"user", "aaaa"⟩]⟩ (by decide)

/-- C4 counterexample: with `max_turns = 5`, `max_tokens_budget = 1`, the
inserts user:"aaaa", assistant:"bbbb", user:"cccccccc" leave a single
over-budget message in the history — so after this insert neither do both
bounds hold nor do exactly two messages remain (and the final
user+assistant pair was not preserved). -/
theorem session_trimming_counterexample :
    ((Session.init 5 1).run [(true, "aaaa"), (false, "bbbb"), (true, "cccccccc")]).history
      = [⟨"user", "cccccccc"⟩]
    ∧ ¬ ((((Session.init 5 1).run
            [(true, "aaaa"), (false, "bbbb"), (true, "cccccccc")]).history.length ≤ 2 * 5
          ∧ (totalChars (((Session.init 5 1).run
              [(true, "aaaa"), (false, "bbbb"), (true, "cccccccc")]).history) : ℚ) / 4 ≤ 1)
        ∨ (((Session.init 5 1).run
            [(true, "aaaa"), (false, "bbbb"), (true, "cccccccc")]).history.length = 2)) := by
  have hhist : ((Session.init 5 1).run
      [(true, "aaaa"), (false, "bbbb"), (true, "cccccccc")]).history
      = [⟨"user", "cccccccc"⟩] := by
    norm_num [Session.run, Session.init, Session.add_user_message,
      Session.add_assistant_message, Session.trim, capHistory, trimBudget, totalChars,
      show ("aaaa" : String).length = 4 from rfl,
      show ("bbbb" : String).length = 4 from rfl,
      show ("cccccccc" : String).length = 8 from rfl]
  refine ⟨hhist, ?_⟩
  rw [hhist]
  norm_num [totalChars, show ("cccccccc" : String).length = 8 from rfl]

/-- C9: `check_hallucination(text, no_speech_prob, avg_logprob)` returns
`rejected = true` iff `no_speech_prob ≥ no_speech_threshold` or
`avg_logprob < logprob_threshold` or the trimmed, lowercased,
trailing-punctuation-stripped text exactly matches a blocklist phrase; in
the blocklist case (thresholds passed) the reason is
`"hallucination_blocklist"`, and when not rejected the reason is empty. -/
theorem check_hallucination_spec (text : String) (p l nst lst : ℚ) :
    ((check_hallucination text p l nst lst).1 = true
      ↔ (nst ≤ p ∨ l < lst
          ∨ normalizeTranscript text ∈ hallucinationPhrases))
    ∧ ((p < nst ∧ lst ≤ l ∧ normalizeTranscript text ∈ hallucinationPhrases)
        → (check_hallucination text p l nst lst).2 = "hallucination_blocklist")
    ∧ ((check_hallucination text p l nst lst).1 = false
        → (check_hallucination text p l nst lst).2 = "") := by
  simp only [check_hallucination]
  split_ifs with h1 h2 h3 <;>
    refine ⟨?_, ?_, ?_⟩ <;> simp_all

/-- C9 witness: the E2 scenario — `"Thank you for watching."` with
`no_speech_prob = 0.01`, `avg_logprob = −0.1` and default thresholds is
rejected with reason `"hallucination_blocklist"`. -/
theorem check_hallucination_spec_witness :
    ((0.01 : ℚ) < 0.6 ∧ (-1.0 : ℚ) ≤ -0.1
      ∧ normalizeTranscript "Thank you for watching." ∈ hallucinationPhrases)
    ∧ (check_hallucination "Thank you for watching." 0.01 (-0.1) 0.6 (-1.0)).2
        = "hallucination_blocklist" := by
  have hmem : normalizeTranscript "Thank you for watching." ∈ hallucinationPhrases := by
    decide
  have hhyp : (0.01 : ℚ) < 0.6 ∧ (-1.0 : ℚ) ≤ -0.1
      ∧ normalizeTranscript "Thank you for watching." ∈ hallucinationPhrases :=
    ⟨by norm_num, by norm_num, hmem⟩
  exact ⟨hhyp,
    (check_hallucination_spec "Thank you for watching." 0.01 (-0.1) 0.6 (-1.0)).2.1 hhyp⟩

theorem dropExpired_suffix (ttl now : ℚ) (l : List (ℚ × PyData)) :
    ∃ k, dropExpired ttl now l = l.drop k
      ∧ ∀ e ∈ l.take k, ttl < now - e.1 := by
  induction l with
  | nil => exact ⟨0, rfl, by simp⟩
  | cons e rest ih =>
    by_cases h : now - e.1 ≤ ttl
    · exact ⟨0, by simp [dropExpired, h], by simp⟩
    · obtain ⟨k, hk, hexp⟩ := ih
      refine ⟨k + 1, ?_, ?_⟩
      · simpa [dropExpired, h] using hk
      · intro e' he'
        simp only [List.take_succ_cons, List.mem_cons] at he'
        rcases he' with heq | hmem
        · subst heq; linarith [not_le.mp h]
        · exact hexp e' hmem

theorem dropExpired_length_le (ttl now : ℚ) (l : List (ℚ × PyData)) :
    (dropExpired ttl now l).length ≤ l.length := by
  obtain ⟨k, hk, _⟩ := dropExpired_suffix ttl now l
  rw [hk]
  simp [List.length_drop]

/-- C8: the offline outbox keeps at most `offline_send_buffer_size`
entries; every mutation drops expired entries from the head and on
overflow the oldest entry, so the surviving buffer is always a suffix of
(old buffer ++ new entry); draining returns the surviving entries in
FIFO enqueue order and empties the buffer; and in the E5 scenario
(buffer size 2, sends wake/barge_in/follow_up_timeout while
disconnected) exactly `[barge_in, follow_up_timeout]` is delivered, in
that order. -/
theorem offline_outbox_spec (c : ServerConnection) (now : ℚ) (d : PyData)
    (hsize : 1 ≤ c.offline_send_buffer_size)
    (hlen : c.offline_send_buffer.length ≤ c.offline_send_buffer_size) :
    ((c.buffer_offline_send now d).offline_send_buffer.length
        ≤ c.offline_send_buffer_size)
    ∧ (∃ k, (c.buffer_offline_send now d).offline_send_buffer
          = (c.offline_send_buffer ++ [(now, d)]).drop k)
    ∧ (∃ k, (c.drain_offline_send_buffer now).1
          = (c.offline_send_buffer.drop k).map Prod.snd
        ∧ (∀ e ∈ c.offline_send_buffer.take k, c.offline_send_ttl_s < now - e.1)
        ∧ (c.drain_offline_send_buffer now).2.offline_send_buffer = [])
    ∧ ((((⟨2, 5, []⟩ : ServerConnection).send_wake_offline 0 0.9).send_barge_in_offline
          0).send_follow_up_timeout_offline 0).offline_send_buffer
        = [(0, .text .barge_in), (0, .text .follow_up_timeout)]
    ∧ (((((⟨2, 5, []⟩ : ServerConnection).send_wake_offline 0 0.9).send_barge_in_offline
          0).send_follow_up_timeout_offline 0).drain_offline_send_buffer 0).1
        = [.text .barge_in, .text .follow_up_timeout] := by
  obtain ⟨k0, hk0, hexp0⟩ :=
    dropExpired_suffix c.offline_send_ttl_s now c.offline_send_buffer
  have hlen0 := dropExpired_length_le c.offline_send_ttl_s now c.offline_send_buffer
  have he5a : ((((⟨2, 5, []⟩ : ServerConnection).send_wake_offline 0 0.9).send_barge_in_offline
        0).send_follow_up_timeout_offline 0).offline_send_buffer
      = [(0, .text .barge_in), (0, .text .follow_up_timeout)] := by
    norm_num [ServerConnection.send_wake_offline, ServerConnection.send_barge_in_offline,
      ServerConnection.send_follow_up_timeout_offline,
      ServerConnection.buffer_offline_send, dropExpired, make_wake, make_barge_in,
      make_follow_up_timeout]
  refine ⟨?_, ?_, ?_, he5a, ?_⟩
  · simp only [ServerConnection.buffer_offline_send]
    split_ifs with hfull
    · simp only [List.length_append, List.length_drop, List.length_cons,
        List.length_nil]
      omega
    · simp only [List.length_append, List.length_cons, List.length_nil]
      omega
  · simp only [ServerConnection.buffer_offline_send]
    split_ifs with hfull
    · refine ⟨k0 + 1, ?_⟩
      have h1 : k0 + 1 ≤ c.offline_send_buffer.length := by
        rw [hk0] at hfull
        simp only [List.length_drop] at hfull
        omega
      rw [hk0, List.drop_drop, List.drop_append_of_le_length h1]
    · refine ⟨min k0 c.offline_send_buffer.length, ?_⟩
      have hmin : List.drop k0 c.offline_send_buffer
          = List.drop (min k0 c.offline_send_buffer.length) c.offline_send_buffer := by
        rcases Nat.le_total k0 c.offline_send_buffer.length with h | h
        · rw [Nat.min_eq_left h]
        · rw [Nat.min_eq_right h, List.drop_eq_nil_of_le h,
            List.drop_eq_nil_of_le le_rfl]
      rw [hk0, hmin, List.drop_append_of_le_length (Nat.min_le_right _ _)]
  · refine ⟨k0, ?_, hexp0, rfl⟩
    show (dropExpired c.offline_send_ttl_s now c.offline_send_buffer).map Prod.snd = _
    rw [hk0]
  · norm_num [ServerConnection.drain_offline_send_buffer,
      ServerConnection.send_wake_offline, ServerConnection.send_barge_in_offline,
      ServerConnection.send_follow_up_timeout_offline,
      ServerConnection.buffer_offline_send, dropExpired, make_wake, make_barge_in,
      make_follow_up_timeout]

/-- C8 witness: the outbox facts instantiated at a concrete connection
state. -/
theorem offline_outbox_spec_witness :
    (((⟨3, 5, [(0, .text .barge_in)]⟩ : ServerConnection).buffer_offline_send 1
        (.text .follow_up_timeout)).offline_send_buffer.length ≤ 3)
    ∧ (∃ k, (((⟨3, 5, [(0, .text .barge_in)]⟩ : ServerConnection).buffer_offline_send 1
        (.text .follow_up_timeout)).offline_send_buffer
          = ([((0 : ℚ), PyData.text WireText.barge_in)]
              ++ [((1 : ℚ), PyData.text WireText.follow_up_timeout)]).drop k))
    ∧ (∃ k, ((⟨3, 5, [(0, .text .barge_in)]⟩ : ServerConnection).drain_offline_send_buffer
          1).1 = ([((0 : ℚ), PyData.text WireText.barge_in)].drop k).map Prod.snd
        ∧ (∀ e ∈ ([((0 : ℚ), PyData.text WireText.barge_in)].take k), (5 : ℚ) < 1 - e.1)
        ∧ ((⟨3, 5, [(0, .text .barge_in)]⟩ : ServerConnection).drain_offline_send_buffer
            1).2.offline_send_buffer = [])
    ∧ ((((⟨2, 5, []⟩ : ServerConnection).send_wake_offline 0 0.9).send_barge_in_offline
          0).send_follow_up_timeout_offline 0).offline_send_buffer
        = [(0, .text .barge_in), (0, .text .follow_up_timeout)]
    ∧ (((((⟨2, 5, []⟩ : ServerConnection).send_wake_offline 0 0.9).send_barge_in_offline
          0).send_follow_up_timeout_offline 0).drain_offline_send_buffer 0).1
        = [.text .barge_in, .text .follow_up_timeout] :=
  offline_outbox_spec ⟨3, 5, [(0, .text .barge_in)]⟩ 1 (.text .follow_up_timeout)
    (by norm_num) (by norm_num)

theorem pushPreRoll_length (size : Nat) (pb : List (List Int)) (f : List Int)
    (h : pb.length ≤ size) : (pushPreRoll size pb f).length ≤ size := by
  unfold pushPreRoll
  split_ifs with hlt <;> simp_all

theorem pushPreRoll_getLast (size : Nat) (pb : List (List Int)) (f : List Int)
    (hsize : 1 ≤ size) : (pushPreRoll size pb f).getLast? = some f := by
  unfold pushPreRoll
  split_ifs with hlt
  · have hpb : 1 ≤ pb.length := by
      simp only [List.length_append, List.length_cons, List.length_nil] at hlt
      omega
    rw [List.drop_append_of_le_length hpb, List.getLast?_concat]
  · exact List.getLast?_concat _

theorem UtteranceDetector.process_step (d : UtteranceDetector) (now : ℚ)
    (frame : List Int) (sp : Bool)
    (hsz : d.pre_buffer_size = d.speech_onset_frames + 4)
    (hons : 1 ≤ d.speech_onset_frames)
    (hpb : d.pre_buffer.length ≤ d.pre_buffer_size)
    (hwait : d.state = .waiting →
      d.consecutive_speech < d.speech_onset_frames ∧ d.audio_chunks = []) :
    ((d.process now frame sp).pre_buffer_size = d.pre_buffer_size
      ∧ (d.process now frame sp).speech_onset_frames = d.speech_onset_frames)
    ∧ (d.process now frame sp).pre_buffer.length ≤ (d.process now frame sp).pre_buffer_size
    ∧ ((d.process now frame sp).state = .waiting →
        (d.process now frame sp).consecutive_speech
            < (d.process now frame sp).speech_onset_frames
        ∧ (d.process now frame sp).audio_chunks = [])
    ∧ ((d.state = .waiting ∧ (d.process now frame sp).state = .waiting)
       ∨ (d.state = .waiting ∧ (d.process now frame sp).state = .collecting)
       ∨ (d.state = .collecting ∧ (d.process now frame sp).state = .collecting)
       ∨ (d.state = .collecting ∧ (d.process now frame sp).state = .complete)
       ∨ (d.state = .complete ∧ d.process now frame sp = d))
    ∧ (d.state = .waiting → (d.process now frame sp).state = .waiting →
        (d.process now frame sp).pre_buffer.getLast? = some frame)
    ∧ (d.state = .waiting →
        ((d.process now frame sp).state = .collecting
          ↔ (sp = true ∧ d.consecutive_speech + 1 = d.speech_onset_frames)))
    ∧ (d.state = .waiting → (d.process now frame sp).state = .collecting →
        (d.process now frame sp).consecutive_speech = d.speech_onset_frames
        ∧ (d.process now frame sp).audio_chunks
            = pushPreRoll d.pre_buffer_size d.pre_buffer frame
        ∧ (d.process now frame sp).pre_buffer = [])
    ∧ (d.state = .complete → d.process now frame sp = d) := by
  obtain ⟨dst, donf, dpbs, st, dcs, dlst, dac, dpb⟩ := d
  simp only at hsz hons hpb hwait ⊢
  rcases st with _ | _ | _ <;> cases sp
  · -- waiting, silence
    obtain ⟨hw1, hw2⟩ := hwait rfl
    subst hw2
    simp only [UtteranceDetector.process]
    simp_all [pushPreRoll_length, pushPreRoll_getLast]
    omega
  · -- waiting, speech
    obtain ⟨hw1, hw2⟩ := hwait rfl
    subst hw2
    simp only [UtteranceDetector.process]
    have hplen := pushPreRoll_length dpbs dpb frame hpb
    have hplast := pushPreRoll_getLast dpbs dpb frame (by omega)
    by_cases hc : donf ≤ dcs + 1
    · simp_all
      omega
    · simp [hc, hplen, hplast]
      omega
  · -- collecting, silence
    simp only [UtteranceDetector.process]
    by_cases ht : dst ≤ now - dlst
    · simp_all
    · simp [ht, hpb]
  · -- collecting, speech
    simp only [UtteranceDetector.process]
    simp_all
  · -- complete, silence
    simp only [UtteranceDetector.process]
    simp_all
  · -- complete, speech
    simp only [UtteranceDetector.process]
    simp_all

theorem UtteranceDetector.run_invariant (stms : ℚ) (onset : Nat)
    (hons : 1 ≤ onset) (tr : List (ℚ × List Int × Bool)) :
    ((UtteranceDetector.init stms onset).run tr).pre_buffer_size = onset + 4
    ∧ ((UtteranceDetector.init stms onset).run tr).speech_onset_frames = onset
    ∧ ((UtteranceDetector.init stms onset).run tr).pre_buffer.length ≤ onset + 4
    ∧ (((UtteranceDetector.init stms onset).run tr).state = .waiting →
        ((UtteranceDetector.init stms onset).run tr).consecutive_speech < onset
        ∧ ((UtteranceDetector.init stms onset).run tr).audio_chunks = []) := by
  have main : ∀ (tr : List (ℚ × List Int × Bool)) (d : UtteranceDetector),
      d.pre_buffer_size = onset + 4 → d.speech_onset_frames = onset →
      d.pre_buffer.length ≤ onset + 4 →
      (d.state = .waiting → d.consecutive_speech < onset ∧ d.audio_chunks = []) →
      (d.run tr).pre_buffer_size = onset + 4
      ∧ (d.run tr).speech_onset_frames = onset
      ∧ (d.run tr).pre_buffer.length ≤ onset + 4
      ∧ ((d.run tr).state = .waiting →
          (d.run tr).consecutive_speech < onset ∧ (d.run tr).audio_chunks = []) := by
    intro tr
    induction tr with
    | nil => intro d h1 h2 h3 h4; exact ⟨h1, h2, h3, h4⟩
    | cons t rest ih =>
      intro d h1 h2 h3 h4
      have hstep := UtteranceDetector.process_step d t.1 t.2.1 t.2.2
        (by rw [h1, h2]) (by rw [h2]; exact hons) (by rw [h1]; exact h3)
        (by rw [h2]; exact h4)
      obtain ⟨⟨hc1, hc2⟩, hinv1, hinv2, _⟩ := hstep
      have hrun : d.run (t :: rest) = (d.process t.1 t.2.1 t.2.2).run rest := rfl
      rw [hrun]
      exact ih (d.process t.1 t.2.1 t.2.2) (by rw [hc1, h1]) (by rw [hc2, h2])
        (by rw [hc1, h1] at hinv1; exact hinv1)
        (by rw [hc2, h2] at hinv2; exact hinv2)
  exact main tr (UtteranceDetector.init stms onset) rfl rfl
    (by simp [UtteranceDetector.init]) (fun _ => ⟨hons, rfl⟩)

/-- C3: along any `process` trace without a `reset`, the state only
advances `waiting → collecting → complete` (never skips or regresses); in
`waiting` the processed frame is kept in a pre-roll of at most
`speech_onset_frames + 4` frames; the transition to `collecting` happens
exactly when the consecutive-speech counter reaches
`speech_onset_frames` (for a positive onset config) and flushes the
pre-roll into the utterance; and once `complete`, further `process` calls
leave the detector unchanged (returning `complete`). -/
theorem vad_state_machine (stms : ℚ) (onset : Nat) (hons : 1 ≤ onset)
    (tr : List (ℚ × List Int × Bool)) (now : ℚ) (frame : List Int) (sp : Bool) :
    (((((UtteranceDetector.init stms onset).run tr).state = .waiting
        ∧ (((UtteranceDetector.init stms onset).run tr).process now frame sp).state = .waiting)
       ∨ ((((UtteranceDetector.init stms onset).run tr).state = .waiting)
        ∧ (((UtteranceDetector.init stms onset).run tr).process now frame sp).state = .collecting)
       ∨ ((((UtteranceDetector.init stms onset).run tr).state = .collecting)
        ∧ (((UtteranceDetector.init stms onset).run tr).process now frame sp).state = .collecting)
       ∨ ((((UtteranceDetector.init stms onset).run tr).state = .collecting)
        ∧ (((UtteranceDetector.init stms onset).run tr).process now frame sp).state = .complete)
       ∨ ((((UtteranceDetector.init stms onset).run tr).state = .complete)
        ∧ ((UtteranceDetector.init stms onset).run tr).process now frame sp
            = (UtteranceDetector.init stms onset).run tr)))
    ∧ ((((UtteranceDetector.init stms onset).run tr).process now frame sp).pre_buffer.length
        ≤ onset + 4)
    ∧ (((UtteranceDetector.init stms onset).run tr).state = .waiting →
        (((UtteranceDetector.init stms onset).run tr).process now frame sp).state = .waiting →
        (((UtteranceDetector.init stms onset).run tr).process now frame sp).pre_buffer.getLast?
          = some frame)
    ∧ (((UtteranceDetector.init stms onset).run tr).state = .waiting →
        ((((UtteranceDetector.init stms onset).run tr).process now frame sp).state = .collecting
          ↔ (sp = true
              ∧ ((UtteranceDetector.init stms onset).run tr).consecutive_speech + 1 = onset)))
    ∧ (((UtteranceDetector.init stms onset).run tr).state = .waiting →
        (((UtteranceDetector.init stms onset).run tr).process now frame sp).state = .collecting →
        (((UtteranceDetector.init stms onset).run tr).process now frame sp).consecutive_speech
            = onset
        ∧ (((UtteranceDetector.init stms onset).run tr).process now frame sp).audio_chunks
            = pushPreRoll (onset + 4)
                ((UtteranceDetector.init stms onset).run tr).pre_buffer frame
        ∧ (((UtteranceDetector.init stms onset).run tr).process now frame sp).pre_buffer = [])
    ∧ (((UtteranceDetector.init stms onset).run tr).state = .complete →
        ((UtteranceDetector.init stms onset).run tr).process now frame sp
          = (UtteranceDetector.init stms onset).run tr) := by
  obtain ⟨h1, h2, h3, h4⟩ := UtteranceDetector.run_invariant stms onset hons tr
  have hstep := UtteranceDetector.process_step ((UtteranceDetector.init stms onset).run tr)
    now frame sp (by rw [h1, h2]) (by rw [h2]; exact hons) (by rw [h1]; exact h3)
    (by rw [h2]; exact h4)
  obtain ⟨⟨hc1, hc2⟩, hinv1, hinv2, hord, hkeep, hiff, hflush, habs⟩ := hstep
  refine ⟨hord, ?_, hkeep, ?_, ?_, habs⟩
  · rw [hc1, h1] at hinv1; exact hinv1
  · rw [h2] at hiff; exact hiff
  · intro hw hcol
    obtain ⟨hf1, hf2, hf3⟩ := hflush hw hcol
    exact ⟨by rw [hf1, h2], by rw [hf2, h1], hf3⟩

/-- C3 witness: the state-machine facts instantiated at a concrete
detector trace (onset 2, two speech frames then the next call). -/
theorem vad_state_machine_witness :
    (1 : Nat) ≤ 2
    ∧ (let d := (UtteranceDetector.init 600 2).run [(0, [5], true)]
       let d' := d.process 1 [6] true
       (d.state = .waiting ∧ d'.state = .waiting)
       ∨ (d.state = .waiting ∧ d'.state = .collecting)
       ∨ (d.state = .collecting ∧ d'.state = .collecting)
       ∨ (d.state = .collecting ∧ d'.state = .complete)
       ∨ (d.state = .complete ∧ d' = d)) := by
  refine ⟨by norm_num, ?_⟩
  exact (vad_state_machine 600 2 (by norm_num) [(0, [5], true)] 1 [6] true).1

/-- C10: `history` and `get_messages` return fresh copies of the stored
history — the copy holds the same contents, taking it leaves the stored
history unchanged, and mutating the returned list object (append,
remove, reorder, …) never changes the stored history; more generally
only mutations of the session's own list reference change it. -/
theorem session_getters_fresh_copy (h : PyHeap) (f : List Msg → List Msg)
    (halloc : h.session_ref < h.next_ref) :
    ((h.get_messages).2.store (h.get_messages).1 = h.store h.session_ref)
    ∧ ((h.history).2.store (h.history).1 = h.store h.session_ref)
    ∧ ((h.get_messages).2.store h.session_ref = h.store h.session_ref)
    ∧ ((h.history).2.store h.session_ref = h.store h.session_ref)
    ∧ (((h.get_messages).2.mutate (h.get_messages).1 f).store h.session_ref
        = h.store h.session_ref)
    ∧ (((h.history).2.mutate (h.history).1 f).store h.session_ref
        = h.store h.session_ref)
    ∧ (∀ r, r ≠ h.session_ref → (h.mutate r f).store h.session_ref
        = h.store h.session_ref) := by
  have hne : h.session_ref ≠ h.next_ref := Nat.ne_of_lt halloc
  refine ⟨?_, ?_, ?_, ?_, ?_, ?_, ?_⟩
  · simp [PyHeap.get_messages, PyHeap.history, hne]
  · simp [PyHeap.history, hne]
  · simp [PyHeap.get_messages, PyHeap.history, hne]
  · simp [PyHeap.history, hne]
  · simp [PyHeap.get_messages, PyHeap.history, PyHeap.mutate, hne]
  · simp [PyHeap.history, PyHeap.mutate, hne]
  · intro r hr
    simp [PyHeap.mutate, Ne.symm hr]

/-- C10 witness: the fresh-copy facts at a concrete heap. -/
theorem session_getters_fresh_copy_witness :
    (0 : Nat) < 1
    ∧ (let h : PyHeap := ⟨1, fun _ => [⟨"user", "hi"⟩], 0⟩
       let f : List Msg → List Msg := fun l => l ++ [⟨"assistant", "bye"⟩]
       ((h.get_messages).2.store (h.get_messages).1 = h.store h.session_ref)
       ∧ ((h.history).2.store (h.history).1 = h.store h.session_ref)
       ∧ ((h.get_messages).2.store h.session_ref = h.store h.session_ref)
       ∧ ((h.history).2.store h.session_ref = h.store h.session_ref)
       ∧ (((h.get_messages).2.mutate (h.get_messages).1 f).store h.session_ref
           = h.store h.session_ref)
       ∧ (((h.history).2.mutate (h.history).1 f).store h.session_ref
           = h.store h.session_ref)
       ∧ (∀ r, r ≠ h.session_ref → (h.mutate r f).store h.session_ref
           = h.store h.session_ref)) :=
  ⟨by norm_num,
   session_getters_fresh_copy ⟨1, fun _ => [⟨"user", "hi"⟩], 0⟩
     (fun l => l ++ [⟨"assistant", "bye"⟩]) (by norm_num)⟩

theorem streamTtsSent_append (l1 l2 : List TtsChunk) (i : Nat) :
    streamTtsSent (l1 ++ l2) i
      = streamTtsSent l1 i ++ streamTtsSent l2 (i + (streamTtsSent l1 i).length) := by
  induction l1 generalizing i with
  | nil => simp [streamTtsSent]
  | cons c rest ih =>
    by_cases hz : c.audio.length = 0
    · simp only [List.cons_append, streamTtsSent, hz, if_true, reduceIte,
        List.append_eq]
      exact ih i
    · simp only [List.cons_append, streamTtsSent, hz, if_false, reduceIte,
        List.append_eq, ih, List.length_cons]
      have harith : i + 1 + (streamTtsSent rest (i + 1)).length
          = i + ((streamTtsSent rest (i + 1)).length + 1) := by omega
      rw [harith]

theorem streamTtsSent_map_index (chunks : List TtsChunk) (i : Nat) :
    (streamTtsSent chunks i).map (fun m => m.chunk_index)
      = List.range' i (streamTtsSent chunks i).length := by
  induction chunks generalizing i with
  | nil => simp [streamTtsSent]
  | cons c rest ih =>
    by_cases hz : c.audio.length = 0
    · simp only [streamTtsSent, hz, if_true, reduceIte, ih]
    · simp only [streamTtsSent, hz, if_false, reduceIte, List.map_cons, ih,
        List.length_cons, List.range'_succ]

theorem streamTtsSent_nonzero (chunks : List TtsChunk) (i : Nat) :
    ∀ m ∈ streamTtsSent chunks i, m.samples ≠ 0 := by
  induction chunks generalizing i with
  | nil => simp [streamTtsSent]
  | cons c rest ih =>
    by_cases hz : c.audio.length = 0
    · simp only [streamTtsSent, hz, if_true, reduceIte]
      exact ih i
    · simp only [streamTtsSent, hz, if_false, reduceIte]
      intro m hm
      rcases List.mem_cons.mp hm with hm | hm
      · subst hm; exact hz
      · exact ih (i + 1) m hm

theorem streamTtsSent_is_last_false (body : List TtsChunk) (i : Nat)
    (hbody : ∀ c ∈ body, c.is_last = false) :
    ∀ m ∈ streamTtsSent body i, m.is_last = false := by
  induction body generalizing i with
  | nil => simp [streamTtsSent]
  | cons c rest ih =>
    by_cases hz : c.audio.length = 0
    · simp only [streamTtsSent, hz, if_true, reduceIte]
      exact ih i (fun c hc => hbody c (List.mem_cons_of_mem _ hc))
    · simp only [streamTtsSent, hz, if_false, reduceIte]
      intro m hm
      rcases List.mem_cons.mp hm with hm | hm
      · subst hm; exact hbody c (List.mem_cons_self _ _)
      · exact ih (i + 1) (fun c hc => hbody c (List.mem_cons_of_mem _ hc)) m hm

/-- C1 (amended): per pipeline invocation the sent `tts_audio` metas
carry a strictly increasing `chunk_index` starting at 0; `is_last = true`
is sent at most once (also under mid-stream cancellation, which cuts the
sent sequence to a prefix); a zero-length engine chunk is never sent;
and `is_last` is sent exactly once when the stream is not cancelled and
the engine's final chunk is non-empty (when the final chunk is empty it
is skipped together with its `is_last` marker). -/
theorem tts_stream_spec (body : List TtsChunk) (final : TtsChunk) (n : Nat)
    (hbody : ∀ c ∈ body, c.is_last = false) (hfin : final.is_last = true) :
    ((streamTtsSent (body ++ [final]) 0).map (fun m => m.chunk_index)
      = List.range (streamTtsSent (body ++ [final]) 0).length)
    ∧ (∀ m ∈ streamTtsSent (body ++ [final]) 0, m.samples ≠ 0)
    ∧ (((streamTtsSent (body ++ [final]) 0).take n).countP (fun m => m.is_last) ≤ 1)
    ∧ (final.audio ≠ []
        → (streamTtsSent (body ++ [final]) 0).countP (fun m => m.is_last) = 1)
    ∧ (final.audio = []
        → (streamTtsSent (body ++ [final]) 0).countP (fun m => m.is_last) = 0) := by
  have hsplit := streamTtsSent_append body [final] 0
  have hbody_last := streamTtsSent_is_last_false body 0 hbody
  have hcount : (streamTtsSent (body ++ [final]) 0).countP (fun m => m.is_last)
      = if final.audio = [] then 0 else 1 := by
    rw [hsplit, List.countP_append]
    have h1 : (streamTtsSent body 0).countP (fun m => m.is_last) = 0 := by
      rw [List.countP_eq_zero]
      intro m hm
      simp [hbody_last m hm]
    rw [h1]
    by_cases hz : final.audio = []
    · simp [streamTtsSent, hz]
    · have hlen : ¬ final.audio.length = 0 := by simp [hz]
      simp [streamTtsSent, hlen, hz, hfin]
  refine ⟨?_, streamTtsSent_nonzero _ 0, ?_, ?_, ?_⟩
  · rw [streamTtsSent_map_index]
    rw [List.range_eq_range']
  · calc ((streamTtsSent (body ++ [final]) 0).take n).countP (fun m => m.is_last)
        ≤ (streamTtsSent (body ++ [final]) 0).countP (fun m => m.is_last) := by
          conv_rhs => rw [← List.take_append_drop n (streamTtsSent (body ++ [final]) 0)]
          rw [List.countP_append]
          omega
      _ ≤ 1 := by rw [hcount]; split_ifs <;> omega
  · intro hz; rw [hcount]; simp [hz]
  · intro hz; rw [hcount]; simp [hz]

/-- C1 witness: the streaming facts at a concrete two-chunk engine
stream. -/
theorem tts_stream_spec_witness :
    ((∀ c ∈ [(⟨[100, 200, 300], 22050, false⟩ : TtsChunk)], c.is_last = false)
      ∧ (⟨[400, 500, 600], 22050, true⟩ : TtsChunk).is_last = true)
    ∧ ((streamTtsSent ([⟨[100, 200, 300], 22050, false⟩]
          ++ [⟨[400, 500, 600], 22050, true⟩]) 0).map (fun m => m.chunk_index)
        = List.range (streamTtsSent ([⟨[100, 200, 300], 22050, false⟩]
            ++ [⟨[400, 500, 600], 22050, true⟩]) 0).length)
    ∧ ((⟨[400, 500, 600], 22050, true⟩ : TtsChunk).audio ≠ []
        → (streamTtsSent ([⟨[100, 200, 300], 22050, false⟩]
            ++ [⟨[400, 500, 600], 22050, true⟩]) 0).countP (fun m => m.is_last) = 1) := by
  have hb : ∀ c ∈ [(⟨[100, 200, 300], 22050, false⟩ : TtsChunk)], c.is_last = false := by
    decide
  have hspec := tts_stream_spec [⟨[100, 200, 300], 22050, false⟩]
    ⟨[400, 500, 600], 22050, true⟩ 1 hb rfl
  exact ⟨⟨hb, rfl⟩, hspec.1, hspec.2.2.2.1⟩

/-- C1 counterexample: when the engine's final chunk is zero-length (the
Kokoro engine yields `(np.array([]), sr, True)` when the last sentence
produces no audio), the handler skips it, so a non-cancelled stream sends
no `is_last = true` meta at all — not exactly one as claimed. -/
theorem tts_stream_counterexample :
    streamTtsSent [⟨[], 24000, true⟩] 0 = []
    ∧ ¬ ((streamTtsSent [⟨[], 24000, true⟩] 0).countP (fun m => m.is_last) = 1) := by
  constructor
  · rfl
  · decide

theorem chatLoop_props (env : Nat → AttemptOutcome) (mr : Nat) (base : ℚ)
    (jitter : Nat → ℚ) :
    ∀ (fuel a : Nat), a ≤ mr → mr + 1 - a ≤ fuel →
      (chatLoop env mr base jitter a).attempts ≤ mr + 1
      ∧ a < (chatLoop env mr base jitter a).attempts
      ∧ (∀ j, a ≤ j → j + 1 < (chatLoop env mr base jitter a).attempts →
          (env j = .netError
            ∨ ∃ s b, env j = .response s b ∧ (s = 429 ∨ 500 ≤ s)))
      ∧ (chatLoop env mr base jitter a).sleeps
          = (List.range' a ((chatLoop env mr base jitter a).attempts - 1 - a)).map
              (sleepDelay base jitter) := by
  intro fuel
  induction fuel with
  | zero => intro a ha hf; omega
  | succ fuel ih =>
    intro a ha hf
    rcases henv : env a with _ | ⟨s, b⟩
    · -- network error
      by_cases hlt : a < mr
      · obtain ⟨ih1, ih2, ih3, ih4⟩ := ih (a + 1) (by omega) (by omega)
        have heq : chatLoop env mr base jitter a
            = { chatLoop env mr base jitter (a + 1) with
                sleeps := sleepDelay base jitter a
                  :: (chatLoop env mr base jitter (a + 1)).sleeps } := by
          rw [chatLoop, henv]
          simp [hlt]
        rw [heq]
        refine ⟨ih1, by simp; omega, ?_, ?_⟩
        · intro j hj hj2
          rcases Nat.eq_or_lt_of_le hj with hj | hj
          · exact Or.inl (by rw [hj] at henv; exact henv)
          · exact ih3 j hj (by simpa using hj2)
        · simp only [ih4]
          have hgt := ih2
          have hn : (chatLoop env mr base jitter (a + 1)).attempts - 1 - a
              = ((chatLoop env mr base jitter (a + 1)).attempts - 1 - (a + 1)) + 1 := by
            omega
          rw [hn, List.range'_succ, List.map_cons]
      · have heq : chatLoop env mr base jitter a
            = ⟨.error .requestError, a + 1, []⟩ := by
          rw [chatLoop, henv]
          simp [hlt]
        rw [heq]
        refine ⟨by simp; omega, by simp, ?_, by simp⟩
        intro j hj hj2
        simp at hj2
        omega
    · -- HTTP response
      by_cases h400 : 400 ≤ s
      · by_cases hretry : _should_retry_status s = true ∧ a < mr
        · obtain ⟨ih1, ih2, ih3, ih4⟩ := ih (a + 1) (by omega) (by omega)
          have heq : chatLoop env mr base jitter a
              = { chatLoop env mr base jitter (a + 1) with
                  sleeps := sleepDelay base jitter a
                    :: (chatLoop env mr base jitter (a + 1)).sleeps } := by
            rw [chatLoop, henv]
            simp [h400, hretry]
          rw [heq]
          refine ⟨ih1, by simp; omega, ?_, ?_⟩
          · intro j hj hj2
            rcases Nat.eq_or_lt_of_le hj with hj | hj
            · refine Or.inr ⟨s, b, by rw [hj] at henv; exact henv, ?_⟩
              have := hretry.1
              simp [_should_retry_status] at this
              rcases this with h | h
              · exact Or.inl h
              · exact Or.inr h
            · exact ih3 j hj (by simpa using hj2)
          · simp only [ih4]
            have hn : (chatLoop env mr base jitter (a + 1)).attempts - 1 - a
                = ((chatLoop env mr base jitter (a + 1)).attempts - 1 - (a + 1)) + 1 := by
              omega
            rw [hn, List.range'_succ, List.map_cons]
        · have heq : chatLoop env mr base jitter a
              = ⟨.error (.httpError s), a + 1, []⟩ := by
            rw [chatLoop, henv]
            simp [h400, hretry]
          rw [heq]
          refine ⟨by simp; omega, by simp, ?_, by simp⟩
          intro j hj hj2
          simp at hj2
          omega
      · have heq : chatLoop env mr base jitter a = ⟨.ok b, a + 1, []⟩ := by
          rw [chatLoop, henv]
          simp [h400]
        rw [heq]
        refine ⟨by simp; omega, by simp, ?_, by simp⟩
        intro j hj hj2
        simp at hj2
        omega

/-- C7 (amended): `chat` makes at most `max_retries + 1` attempts; it
retries only on network errors and on HTTP status in `{429} ∪ [500, ∞)`
(the source tests `status >= 500` with no upper bound, so statuses ≥ 600
also retry); every retry sleeps `retry_base_delay_s × 2^attempt` plus a
0–25% jitter; any other HTTP error (e.g. 401) propagates after exactly
one attempt; and in the E6 scenario (first attempt raises a timeout,
second succeeds with "hello") exactly two attempts are made and the
result is "hello". -/
theorem llm_chat_retry_spec (env : Nat → AttemptOutcome) (mr : Nat) (base : ℚ)
    (jitter : Nat → ℚ)
    (hjit : ∀ a, 0 ≤ jitter a ∧ jitter a ≤ base * 2 ^ a * (1 / 4)) :
    (OpenRouterClient.chat env mr base jitter).attempts ≤ mr + 1
    ∧ (∀ j, j + 1 < (OpenRouterClient.chat env mr base jitter).attempts →
        (env j = .netError
          ∨ ∃ s b, env j = .response s b ∧ (s = 429 ∨ 500 ≤ s)))
    ∧ (OpenRouterClient.chat env mr base jitter).sleeps
        = (List.range ((OpenRouterClient.chat env mr base jitter).attempts - 1)).map
            (sleepDelay base jitter)
    ∧ (∀ a, base * 2 ^ a ≤ sleepDelay base jitter a
        ∧ sleepDelay base jitter a ≤ base * 2 ^ a * (5 / 4))
    ∧ (∀ s b, env 0 = .response s b → 400 ≤ s → s ≠ 429 → s < 500 →
        (OpenRouterClient.chat env mr base jitter).result = .error (.httpError s)
        ∧ (OpenRouterClient.chat env mr base jitter).attempts = 1)
    ∧ (OpenRouterClient.chat
        (fun a => if a = 0 then .netError else .response 200 "hello") 2 base
        jitter).result = .ok "hello"
    ∧ (OpenRouterClient.chat
        (fun a => if a = 0 then .netError else .response 200 "hello") 2 base
        jitter).attempts = 2 := by
  obtain ⟨h1, h2, h3, h4⟩ := chatLoop_props env mr base jitter (mr + 1) 0
    (by omega) (by omega)
  have he6 : chatLoop (fun a => if a = 0 then .netError else .response 200 "hello")
      2 base jitter 0
      = { result := .ok "hello", attempts := 2,
          sleeps := [sleepDelay base jitter 0] } := by
    rw [chatLoop]
    simp only [if_true, reduceIte]
    rw [chatLoop]
    norm_num
  refine ⟨h1, fun j => h3 j (Nat.zero_le j), ?_, ?_, ?_, ?_, ?_⟩
  · show (chatLoop env mr base jitter 0).sleeps = _
    rw [h4, List.range_eq_range']
    simp [OpenRouterClient.chat]
  · intro a
    obtain ⟨hj1, hj2⟩ := hjit a
    constructor
    · simp only [sleepDelay]; linarith
    · simp only [sleepDelay]; linarith
  · intro s b henv h400 h429 h500
    have heq : OpenRouterClient.chat env mr base jitter
        = ⟨.error (.httpError s), 1, []⟩ := by
      show chatLoop env mr base jitter 0 = _
      rw [chatLoop, henv]
      have hns : _should_retry_status s = false := by
        simp [_should_retry_status]
        omega
      simp [h400, hns]
    rw [heq]
    exact ⟨rfl, rfl⟩
  · show (chatLoop _ 2 base jitter 0).result = _
    rw [he6]
  · show (chatLoop _ 2 base jitter 0).attempts = _
    rw [he6]

/-- C7 witness: the retry facts instantiated at a concrete environment
(zero jitter, base delay 1). -/
theorem llm_chat_retry_spec_witness :
    (∀ a : Nat, (0 : ℚ) ≤ 0 ∧ (0 : ℚ) ≤ 1 * 2 ^ a * (1 / 4))
    ∧ ((OpenRouterClient.chat (fun _ => .response 401 "x") 2 1 (fun _ => 0)).attempts
        ≤ 2 + 1)
    ∧ (OpenRouterClient.chat
        (fun a => if a = 0 then .netError else .response 200 "hello") 2 1
        (fun _ => (0 : ℚ))).result = .ok "hello" := by
  have hjit : ∀ a : Nat, (0 : ℚ) ≤ (fun _ : Nat => (0 : ℚ)) a
      ∧ (fun _ : Nat => (0 : ℚ)) a ≤ 1 * 2 ^ a * (1 / 4) := by
    intro a
    constructor
    · norm_num
    · simp only
      positivity
  have hspec := llm_chat_retry_spec (fun _ => .response 401 "x") 2 1 (fun _ => 0) hjit
  exact ⟨fun a => hjit a, hspec.1, hspec.2.2.2.2.2.1⟩

/-- C7 counterexample: with a first response of HTTP status 600 the
client retries (two attempts are made), although
`600 ∉ {429} ∪ [500, 600)` — the source tests `status >= 500` with no
upper bound. -/
theorem llm_retry_counterexample :
    (OpenRouterClient.chat
      (fun a => if a = 0 then .response 600 "" else .response 200 "ok") 2 1
      (fun _ => 0)).attempts = 2
    ∧ _should_retry_status 600 = true
    ∧ ¬ ((600 : Nat) = 429 ∨ (500 ≤ 600 ∧ 600 < 600)) := by
  refine ⟨?_, rfl, by norm_num⟩
  show (chatLoop _ 2 1 (fun _ => 0) 0).attempts = 2
  rw [chatLoop]
  simp only [if_true, reduceIte]
  rw [chatLoop]
  norm_num [_should_retry_status]

/-- C2: the three protocol-violation paths of `_on_utterance_audio`
(malformed meta, missing binary frame, size mismatch beyond the reject
ratio) all call `protocol.make_error(..., stage="protocol", code=...)`,
but `make_error` in `shared/protocol.py` has no `code` parameter
(`make_error_params = ["message", "stage"]`), so each path raises
`TypeError` instead of replying with the typed error that the spec (and
`tests/test_protocol.py::test_make_error`) require; no pipeline task is
spawned and no error frame is sent. -/
theorem protocol_error_code_bug :
    ¬ ("code" ∈ make_error_params)
    ∧ on_utterance_audio 0.2 (.int 16000) (.int 1000) (some [1, 2])
        = .error .typeError
    ∧ on_utterance_audio 0.2 (.str "abc") (.int 0) (some [1, 2])
        = .error .typeError
    ∧ on_utterance_audio 0.2 (.int 16000) (.int 1000) Option.none
        = .error .typeError
    ∧ on_utterance_audio 0.2 (.int 0) (.int 1000) (some [1, 2])
        = .error .typeError := by
  have hraise : ∀ message code : String,
      sendProtocolError message code = .error .typeError := by
    intro message code
    simp [sendProtocolError, callMakeError, make_error_params]
  refine ⟨by decide, ?_, ?_, ?_, ?_⟩
  · norm_num [on_utterance_audio, pyInt, hraise]
  · have habc : pyParseInt "abc" = Option.none := by decide
    norm_num [on_utterance_audio, pyInt, hraise, habc]
  · norm_num [on_utterance_audio, pyInt, hraise]
  · norm_num [on_utterance_audio, pyInt, hraise]

theorem list_getD_drop (l : List Int) (m i : Nat) :
    (l.drop m).getD i 0 = l.getD (m + i) 0 := by
  simp [List.getD_eq_getElem?_getD, List.getElem?_drop]

theorem list_getD_append (c d : List Int) (i : Nat) :
    (c ++ d).getD (c.length + i) 0 = d.getD i 0 := by
  simp [List.getD_eq_getElem?_getD, List.getElem?_append_right]

theorem list_getD_append_left (c d : List Int) (i : Nat) (h : i < c.length) :
    (c ++ d).getD i 0 = c.getD i 0 := by
  simp [List.getD_eq_getElem?_getD, List.getElem?_append_left h]

theorem mod_cases (x cap : Nat) (h : x < 2 * cap) :
    x % cap = if x < cap then x else x - cap := by
  split_ifs with h2
  · exact Nat.mod_eq_of_lt h2
  · rw [Nat.mod_eq_sub_mod (by omega)]
    exact Nat.mod_eq_of_lt (by omega)

theorem rbInv_init (cap : Nat) (hcap : 1 ≤ cap) :
    rbInv cap (RingBuffer.init cap) [] := by
  refine ⟨rfl, hcap, rfl, ?_⟩
  intro j hj
  simp at hj

theorem rbInv_write (cap : Nat) (hcap : 1 ≤ cap) (rb : RingBuffer)
    (c d : List Int) (h : rbInv cap rb c) : rbInv cap (rb.write d) (c ++ d) := by
  obtain ⟨hc, hwp, ht, hbuf⟩ := h
  subst hc
  by_cases hbig : rb.capacity ≤ d.length
  · -- single write at least as large as the buffer
    have heq : rb.write d = { rb with
        buf := fun i => (d.drop (d.length - rb.capacity)).getD i 0,
        write_pos := 0,
        total_written := rb.total_written + d.length } := by
      rw [RingBuffer.write]
      simp [hbig]
    rw [heq]
    refine ⟨rfl, ?_, ?_, ?_⟩
    · dsimp only; omega
    · dsimp only; simp [ht]
    · intro j hj
      dsimp only
      have hjcap : j < rb.capacity := lt_of_lt_of_le hj (min_le_right _ _)
      have hjn : j < d.length := by omega
      have hidx : (0 + rb.capacity - 1 - j) % rb.capacity = rb.capacity - 1 - j := by
        rw [Nat.mod_eq_of_lt (show 0 + rb.capacity - 1 - j < rb.capacity by omega)]
        omega
      rw [hidx, list_getD_drop]
      have harg : d.length - rb.capacity + (rb.capacity - 1 - j) = d.length - 1 - j := by
        omega
      rw [harg]
      have hrhs : (c ++ d).length - 1 - j = c.length + (d.length - 1 - j) := by
        simp; omega
      rw [hrhs, list_getD_append]
  · -- small write
    have hwpos : (rb.write_pos + d.length) % rb.capacity < rb.capacity :=
      Nat.mod_lt _ (by omega)
    by_cases hfit : rb.write_pos + d.length ≤ rb.capacity
    · -- contiguous
      have heq : rb.write d = { rb with
          buf := fun i =>
            if rb.write_pos ≤ i ∧ i < rb.write_pos + d.length
            then d.getD (i - rb.write_pos) 0 else rb.buf i,
          write_pos := (rb.write_pos + d.length) % rb.capacity,
          total_written := rb.total_written + d.length } := by
        rw [RingBuffer.write]
        simp [hbig, hfit]
      rw [heq]
      refine ⟨rfl, ?_, ?_, ?_⟩
      · dsimp only; exact hwpos
      · dsimp only; simp [ht]
      · intro j hj
        dsimp only
        have hjcap : j < rb.capacity := lt_of_lt_of_le hj (min_le_right _ _)
        have hA : ((rb.write_pos + d.length) % rb.capacity + rb.capacity - 1 - j)
            % rb.capacity
            = (rb.write_pos + d.length + (rb.capacity - 1 - j)) % rb.capacity := by
          have h1 : (rb.write_pos + d.length) % rb.capacity + rb.capacity - 1 - j
              = (rb.write_pos + d.length) % rb.capacity + (rb.capacity - 1 - j) := by
            omega
          rw [h1, Nat.mod_add_mod]
        rw [hA]
        by_cases hjn : j < d.length
        · -- the j-th newest sample comes from d
          have harg : rb.write_pos + d.length + (rb.capacity - 1 - j)
              = rb.write_pos + (d.length - 1 - j) + rb.capacity := by omega
          rw [harg, Nat.add_mod_right]
          have hlt : rb.write_pos + (d.length - 1 - j) < rb.capacity := by omega
          rw [Nat.mod_eq_of_lt hlt]
          rw [if_pos (show rb.write_pos ≤ rb.write_pos + (d.length - 1 - j)
              ∧ rb.write_pos + (d.length - 1 - j) < rb.write_pos + d.length by omega)]
          have harg2 : rb.write_pos + (d.length - 1 - j) - rb.write_pos
              = d.length - 1 - j := by omega
          rw [harg2]
          have hrhs : (c ++ d).length - 1 - j = c.length + (d.length - 1 - j) := by
            simp; omega
          rw [hrhs, list_getD_append]
        · -- the j-th newest sample is an old one
          have hj2 : j - d.length < min c.length rb.capacity := by
            simp only [List.length_append, lt_min_iff] at hj ⊢
            omega
          have hclen : j - d.length < c.length := lt_of_lt_of_le hj2 (min_le_left _ _)
          have hold := hbuf (j - d.length) hj2
          have harg : rb.write_pos + d.length + (rb.capacity - 1 - j)
              = rb.write_pos + rb.capacity - 1 - (j - d.length) := by omega
          rw [harg]
          have hB : rb.write_pos + rb.capacity - 1 - (j - d.length)
              < 2 * rb.capacity := by omega
          rw [mod_cases _ _ hB] at hold ⊢
          have hrhs : (c ++ d).length - 1 - j = c.length - 1 - (j - d.length) := by
            simp; omega
          by_cases hcase : rb.write_pos + rb.capacity - 1 - (j - d.length)
              < rb.capacity
          · rw [if_pos hcase] at hold ⊢
            rw [if_neg (show ¬ (rb.write_pos
                  ≤ rb.write_pos + rb.capacity - 1 - (j - d.length)
                ∧ rb.write_pos + rb.capacity - 1 - (j - d.length)
                    < rb.write_pos + d.length) by omega)]
            rw [hold, hrhs, list_getD_append_left c d _ (by omega)]
          · rw [if_neg hcase] at hold ⊢
            rw [if_neg (show ¬ (rb.write_pos
                  ≤ rb.write_pos + rb.capacity - 1 - (j - d.length) - rb.capacity
                ∧ rb.write_pos + rb.capacity - 1 - (j - d.length) - rb.capacity
                    < rb.write_pos + d.length) by omega)]
            rw [hold, hrhs, list_getD_append_left c d _ (by omega)]
    · -- wrapped write
      have heq : rb.write d = { rb with
          buf := fun i =>
            if rb.write_pos ≤ i ∧ i < rb.capacity then d.getD (i - rb.write_pos) 0
            else if i < d.length - (rb.capacity - rb.write_pos) then
              d.getD (rb.capacity - rb.write_pos + i) 0
            else rb.buf i,
          write_pos := (rb.write_pos + d.length) % rb.capacity,
          total_written := rb.total_written + d.length } := by
        rw [RingBuffer.write]
        simp [hbig, hfit]
      rw [heq]
      refine ⟨rfl, ?_, ?_, ?_⟩
      · dsimp only; exact hwpos
      · dsimp only; simp [ht]
      · intro j hj
        dsimp only
        have hjcap : j < rb.capacity := lt_of_lt_of_le hj (min_le_right _ _)
        have hA : ((rb.write_pos + d.length) % rb.capacity + rb.capacity - 1 - j)
            % rb.capacity
            = (rb.write_pos + d.length + (rb.capacity - 1 - j)) % rb.capacity := by
          have h1 : (rb.write_pos + d.length) % rb.capacity + rb.capacity - 1 - j
              = (rb.write_pos + d.length) % rb.capacity + (rb.capacity - 1 - j) := by
            omega
          rw [h1, Nat.mod_add_mod]
        rw [hA]
        by_cases hjn : j < d.length
        · have harg : rb.write_pos + d.length + (rb.capacity - 1 - j)
              = rb.write_pos + (d.length - 1 - j) + rb.capacity := by omega
          rw [harg, Nat.add_mod_right]
          have hB : rb.write_pos + (d.length - 1 - j) < 2 * rb.capacity := by omega
          rw [mod_cases _ _ hB]
          have hrhs : (c ++ d).length - 1 - j = c.length + (d.length - 1 - j) := by
            simp; omega
          by_cases hcase : rb.write_pos + (d.length - 1 - j) < rb.capacity
          · rw [if_pos hcase]
            rw [if_pos (show rb.write_pos ≤ rb.write_pos + (d.length - 1 - j)
                ∧ rb.write_pos + (d.length - 1 - j) < rb.capacity by omega)]
            have harg2 : rb.write_pos + (d.length - 1 - j) - rb.write_pos
                = d.length - 1 - j := by omega
            rw [harg2, hrhs, list_getD_append]
          · rw [if_neg hcase]
            rw [if_neg (show ¬ (rb.write_pos
                  ≤ rb.write_pos + (d.length - 1 - j) - rb.capacity
                ∧ rb.write_pos + (d.length - 1 - j) - rb.capacity
                    < rb.capacity) by omega)]
            rw [if_pos (show rb.write_pos + (d.length - 1 - j) - rb.capacity
                < d.length - (rb.capacity - rb.write_pos) by omega)]
            have harg2 : rb.capacity - rb.write_pos
                  + (rb.write_pos + (d.length - 1 - j) - rb.capacity)
                = d.length - 1 - j := by omega
            rw [harg2, hrhs, list_getD_append]
        · have hj2 : j - d.length < min c.length rb.capacity := by
            simp only [List.length_append, lt_min_iff] at hj ⊢
            omega
          have hclen : j - d.length < c.length := lt_of_lt_of_le hj2 (min_le_left _ _)
          have hold := hbuf (j - d.length) hj2
          have harg : rb.write_pos + d.length + (rb.capacity - 1 - j)
              = rb.write_pos + rb.capacity - 1 - (j - d.length) := by omega
          rw [harg]
          have hB : rb.write_pos + rb.capacity - 1 - (j - d.length)
              < 2 * rb.capacity := by omega
          rw [mod_cases _ _ hB] at hold ⊢
          have hrhs : (c ++ d).length - 1 - j = c.length - 1 - (j - d.length) := by
            simp; omega
          have hcase : ¬ (rb.write_pos + rb.capacity - 1 - (j - d.length)
              < rb.capacity) := by omega
          rw [if_neg hcase] at hold ⊢
          rw [if_neg (show ¬ (rb.write_pos
                ≤ rb.write_pos + rb.capacity - 1 - (j - d.length) - rb.capacity
              ∧ rb.write_pos + rb.capacity - 1 - (j - d.length) - rb.capacity
                  < rb.capacity) by omega)]
          rw [if_neg (show ¬ (rb.write_pos + rb.capacity - 1 - (j - d.length)
                - rb.capacity < d.length - (rb.capacity - rb.write_pos)) by omega)]
          rw [hold, hrhs, list_getD_append_left c d _ (by omega)]

theorem list_drop_eq_map_getD (l : List Int) (m : Nat) (hm : m ≤ l.length) :
    l.drop m = (List.range (l.length - m)).map (fun i => l.getD (m + i) 0) := by
  apply List.ext_getElem
  · simp [List.length_drop]
  · intro i h1 h2
    simp only [List.getElem_map, List.getElem_range]
    have hlt : m + i < l.length := by
      simp only [List.length_drop] at h1
      omega
    rw [List.getElem_drop]
    simp [List.getD_eq_getElem?_getD, List.getElem?_eq_getElem hlt]

theorem read_last_branches (buf : Nat → Int) (cap av start : Nat)
    (hstart : start < cap) (havc : av ≤ cap) :
    (if start + av ≤ cap then (List.range av).map (fun i => buf (start + i))
     else (List.range (cap - start)).map (fun i => buf (start + i))
       ++ (List.range (av - (cap - start))).map (fun i => buf i))
    = (List.range av).map (fun i => buf ((start + i) % cap)) := by
  by_cases hfit : start + av ≤ cap
  · rw [if_pos hfit]
    apply List.map_congr_left
    intro i hi
    have hi2 := List.mem_range.mp hi
    rw [Nat.mod_eq_of_lt (by omega)]
  · rw [if_neg hfit]
    have hsplit : av = (cap - start) + (av - (cap - start)) := by omega
    conv_rhs => rw [hsplit]
    rw [List.range_add, List.map_append, List.map_map]
    congr 1
    · apply List.map_congr_left
      intro i hi
      have hi2 := List.mem_range.mp hi
      rw [Nat.mod_eq_of_lt (by omega)]
    · apply List.map_congr_left
      intro i hi
      have hi2 := List.mem_range.mp hi
      simp only [Function.comp_apply]
      have h1 : start + (cap - start + i) = cap + i := by omega
      rw [h1, Nat.add_mod_left, Nat.mod_eq_of_lt (by omega)]

theorem read_last_correct (cap : Nat) (hcap : 1 ≤ cap) (rb : RingBuffer)
    (c : List Int) (h : rbInv cap rb c) (k : Nat) :
    rb.read_last k = c.drop (c.length - min k (min c.length cap)) := by
  obtain ⟨hc, hwp, ht, hbuf⟩ := h
  subst hc
  by_cases hav : min k (min c.length rb.capacity) = 0
  · rw [RingBuffer.read_last, ht, if_pos hav, hav]
    simp
  · have hav1 : 1 ≤ min k (min c.length rb.capacity) := by omega
    have havc : min k (min c.length rb.capacity) ≤ rb.capacity := by omega
    have havl : min k (min c.length rb.capacity) ≤ c.length := by omega
    have hstart : (rb.write_pos + rb.capacity - min k (min c.length rb.capacity))
        % rb.capacity < rb.capacity := Nat.mod_lt _ (by omega)
    rw [RingBuffer.read_last, ht, if_neg hav,
      read_last_branches rb.buf rb.capacity _ _ hstart havc]
    rw [list_drop_eq_map_getD c (c.length - min k (min c.length rb.capacity)) (by omega)]
    have hlen : c.length - (c.length - min k (min c.length rb.capacity))
        = min k (min c.length rb.capacity) := by omega
    rw [hlen]
    apply List.map_congr_left
    intro i hi
    have hi2 := List.mem_range.mp hi
    have hj : min k (min c.length rb.capacity) - 1 - i < min c.length rb.capacity := by
      omega
    have hinv := hbuf (min k (min c.length rb.capacity) - 1 - i) hj
    have hidx : ((rb.write_pos + rb.capacity - min k (min c.length rb.capacity))
          % rb.capacity + i) % rb.capacity
        = (rb.write_pos + rb.capacity - 1
            - (min k (min c.length rb.capacity) - 1 - i)) % rb.capacity := by
      rw [Nat.mod_add_mod]
      have h1 : rb.write_pos + rb.capacity - min k (min c.length rb.capacity) + i
          = rb.write_pos + rb.capacity - 1
              - (min k (min c.length rb.capacity) - 1 - i) := by omega
      rw [h1]
    rw [hidx, hinv]
    have h2 : c.length - 1 - (min k (min c.length rb.capacity) - 1 - i)
        = c.length - min k (min c.length rb.capacity) + i := by omega
    rw [h2]

theorem rbInv_fold (cap : Nat) (hcap : 1 ≤ cap) (writes : List (List Int)) :
    ∀ (rb : RingBuffer) (c : List Int), rbInv cap rb c →
      rbInv cap (writes.foldl RingBuffer.write rb) (c ++ writes.flatten) := by
  induction writes with
  | nil => intro rb c h; simpa using h
  | cons w rest ih =>
    intro rb c h
    have h2 := ih _ _ (rbInv_write cap hcap rb c w h)
    simpa [List.append_assoc] using h2

/-- C5: after any sequence of writes whose concatenation is `N` samples,
`read_last(k)` returns exactly the last `min(k, N, capacity)` samples of
the concatenation in chronological order — in particular a single write
larger than the capacity keeps only the trailing `capacity` samples. -/
theorem ring_buffer_read_last (cap : Nat) (hcap : 1 ≤ cap)
    (writes : List (List Int)) (k : Nat) :
    (writes.foldl RingBuffer.write (RingBuffer.init cap)).read_last k
      = writes.flatten.drop
          (writes.flatten.length - min k (min writes.flatten.length cap)) := by
  have hinv := rbInv_fold cap hcap writes (RingBuffer.init cap) []
    (rbInv_init cap hcap)
  simp only [List.nil_append] at hinv
  exact read_last_correct cap hcap _ _ hinv k

/-- C5 witness: a single 3-sample write into a capacity-2 buffer keeps
the trailing two samples. -/
theorem ring_buffer_read_last_witness :
    (1 : Nat) ≤ 2
    ∧ ([[(1 : Int), 2, 3]].foldl RingBuffer.write (RingBuffer.init 2)).read_last 5
        = ([[(1 : Int), 2, 3]].flatten).drop
            (([[(1 : Int), 2, 3]].flatten).length
              - min 5 (min ([[(1 : Int), 2, 3]].flatten).length 2))
    ∧ ([[(1 : Int), 2, 3]].foldl RingBuffer.write (RingBuffer.init 2)).read_last 5
        = [2, 3] :=
  ⟨by norm_num, ring_buffer_read_last 2 (by norm_num) [[1, 2, 3]] 5, by decide⟩


/-- C6: `clean_for_tts` is not idempotent and its output can retain the
very artifacts it is documented to strip: `clean("- - a") = "- a"`
(still a markdown bullet, changed again by a second clean),
`clean("https ://example.com") = "https://example.com"` (the late
whitespace-before-punctuation collapse re-creates a URL),
`clean("Quellen ::") = "Quellen:"` (a line equal to `Quellen:`), and an
unpaired `【` survives — contradicting the specified idempotence and
output guarantees. -/
theorem sanitizer_not_idempotent :
    clean_for_tts "- - a" = "- a"
    ∧ clean_for_tts (clean_for_tts "- - a") = "a"
    ∧ clean_for_tts (clean_for_tts "- - a") ≠ clean_for_tts "- - a"
    ∧ clean_for_tts "https ://example.com" = "https://example.com"
    ∧ clean_for_tts "Quellen ::" = "Quellen:"
    ∧ clean_for_tts "【abc" = "【abc" := by
  refine ⟨by decide, by decide, by decide, by decide, by decide, by decide⟩

end VoiceAssistant
